import Mathlib

/-!
# Outbound-group status stream (`experimental/libbox/command_group.go`)

A shallow embedding of the wire codec (`readGroups`, the encoding half of
`writeGroups`), the snapshot builder (the first half of `writeGroups`), the
client receive loop (`CommandClient.handleGroupConn`) and the server push loop
(`CommandServer.handleGroupConn`).

Conventions of the embedding:

* a Go `byte` is a `Fin 256`, a Go `string` is its sequence of bytes;
* `uint16`/`uint64` values are naturals reduced modulo `2^16`/`2^64`,
  `int64`/`int32` values are integers, with the two's complement conversions
  written out;
* an `io.Reader` is the list of bytes it will still deliver before end of
  stream; a reading function returns the value together with the bytes left;
* an `io.Writer` is a record of the bytes accepted so far, the number of
  `Write` calls issued, and a script that says which calls fail;
* Go's `(value, error)` results are `Except GoError _`; a bare `error` result
  is `Option GoError` (`none` is `nil`);
* a reading function that allocates a buffer whose size it read from the
  stream can panic in `make`: its result is a `ReadResult`, which is the
  value, the error, or the panic; the largest size that `make` allocates is
  a parameter, the `Runtime`;
* the push loop runs against a script of the outcomes of its `select`
  statement and against the values of `s.service` that its iterations read.
-/

namespace Libbox

/-! ## Go values -/

/-- A Go `byte`. -/
abbrev Byte := Fin 256

/-- A Go `string`: an immutable sequence of bytes (not necessarily UTF-8). -/
abbrev GoString := List Byte

/-- The conversion `byte(x)` of an unsigned integer: the low eight bits. -/
def byte (x : Nat) : Byte := ⟨x % 256, Nat.mod_lt _ (by decide)⟩

/-- The conversion `uint16(x)` of a non-negative `int`. -/
def uint16 (x : Nat) : Nat := x % 2 ^ 16

/-- The conversion `uint64(x)` of a non-negative `int`. -/
def uint64 (x : Nat) : Nat := x % 2 ^ 64

/-- The conversion `uint64(x)` of an `int64` (two's complement). -/
def uint64OfInt64 (x : Int) : Nat := (x % 2 ^ 64).toNat

/-- The conversion `uint32(x)` of an `int32` (two's complement). -/
def uint32OfInt32 (x : Int) : Nat := (x % 2 ^ 32).toNat

/-- The conversion `int64(u)` of a `uint64` (two's complement). -/
def int64OfUint64 (u : Nat) : Int := if u < 2 ^ 63 then (u : Int) else (u : Int) - 2 ^ 64

/-- The conversion `int32(u)` of a `uint32` (two's complement). -/
def int32OfUint32 (u : Nat) : Int := if u < 2 ^ 31 then (u : Int) else (u : Int) - 2 ^ 32

/-- The conversion `int32(d)` of a `uint16`: always value preserving. -/
def int32OfUint16 (d : Nat) : Int := ((d % 2 ^ 16 : Nat) : Int)

/-- The values of Go's `error` that the code can meet. `nilPointer` stands for
the run-time panic of dereferencing a nil `*OutboundGroupItem`; the code under
study never stores nil in a snapshot it encodes. `contextError` is a value of
`ctx.Err()`. -/
inductive GoError where
  | EOF
  | ErrUnexpectedEOF
  | errOverflow
  | writeError (text : String)
  | nilPointer
  | contextError (text : String)
  deriving DecidableEq, Repr

deriving instance DecidableEq for Except

/-- The method `err.Error()`. -/
def GoError.Error : GoError → String
  | .EOF => "EOF"
  | .ErrUnexpectedEOF => "unexpected EOF"
  | .errOverflow => "binary: varint overflows a 64-bit integer"
  | .writeError text => text
  | .nilPointer => "runtime error: invalid memory address or nil pointer dereference"
  | .contextError text => text

/-! ## The runtime -/

/-- The Go runtime as far as the code under study depends on it: `maxAlloc` is the size in
bytes of the largest buffer that `make([]byte, size)` provides. On a larger size `make` does
not return, as on a negative one. An `int` has 64 bits. -/
class Runtime where
  maxAlloc : Nat

/-- A runtime whose memory is no limit: `make` provides every size that is a non-negative
`int`. It is the runtime of every statement that names no other one. -/
instance Runtime.unbounded : Runtime := ⟨2 ^ 63 - 1⟩

/-- The outcome of a function that returns `(value, error)` and can panic: the value with the
bytes that the reader still holds, or the error returned, or `panic`: the function did not
return, because `make` raised the run-time panic `makeslice: len out of range` or the runtime
stopped the program for want of memory. Nothing in the code under study recovers a panic: it
unwinds every caller. -/
inductive ReadResult (α : Type) where
  | ok (value : α)
  | error (err : GoError)
  | panic
  deriving DecidableEq, Repr

/-! ## `io` -/

/-- Go's `io.ReadFull(reader, buf)` with `len(buf) = n`: exactly `n` bytes, or `EOF` when
nothing could be read, or `ErrUnexpectedEOF` when the stream ends part-way. -/
def ReadFull (reader : List Byte) (n : Nat) : Except GoError (List Byte × List Byte) :=
  if n ≤ reader.length then .ok (reader.take n, reader.drop n)
  else if reader.length = 0 then .error .EOF
  else .error .ErrUnexpectedEOF

/-- An `io.Writer` under observation. -/
structure Writer where
  /-- The bytes accepted so far, in order. -/
  written : List Byte
  /-- The number of `Write` calls issued so far. -/
  calls : Nat
  /-- The outcome script: `fails k = some err` when the call number `k` (from 0) fails with `err`. -/
  fails : Nat → Option GoError

/-- A writer that accepts everything. -/
def Writer.fresh : Writer := { written := [], calls := 0, fails := fun _ => none }

/-- The method `writer.Write(p)`. -/
def Writer.Write (writer : Writer) (p : List Byte) : Option GoError × Writer :=
  match writer.fails writer.calls with
  | some err => (some err, { writer with calls := writer.calls + 1 })
  | none => (none, { writer with written := writer.written ++ p, calls := writer.calls + 1 })

/-! ## `encoding/binary` -/

/-- Go's `binary.BigEndian.PutUintN` for `N = 8 * width`: most significant byte first. -/
def BigEndian.Put : (width : Nat) → Nat → List Byte
  | 0, _ => []
  | width + 1, v => byte (v >>> (8 * width)) :: BigEndian.Put width v

/-- Go's `binary.BigEndian.UintN`: the bytes read as a base-256 number. -/
def BigEndian.Uint (bs : List Byte) : Nat :=
  bs.foldl (fun acc b => acc <<< 8 ||| b.val) 0

/-- Go's `binary.MaxVarintLen64`. -/
def MaxVarintLen64 : Nat := 10

/-- The loop of `binary.PutUvarint`: `for x >= 0x80 { buf[i] = byte(x) | 0x80; x >>= 7; i++ }`
followed by `buf[i] = byte(x)`. The first argument bounds the number of iterations; a `uint64`
needs at most nine. -/
def PutUvarint.loop : Nat → Nat → List Byte
  | 0, x => [byte x]
  | n + 1, x =>
    if x ≥ 0x80 then byte ((byte x).val ||| 0x80) :: PutUvarint.loop n (x >>> 7)
    else [byte x]

/-- Go's `binary.PutUvarint(buf, x)` for a `uint64` `x`: the bytes stored in `buf`. -/
def PutUvarint (x : Nat) : List Byte := PutUvarint.loop MaxVarintLen64 x

/-- Go's `ReadByte` on a reader that is not an `io.ByteReader`: `io.ReadFull` of
one byte. -/
def ReadByte (reader : List Byte) : Except GoError (Byte × List Byte) :=
  match reader with
  | [] => .error .EOF
  | b :: rest => .ok (b, rest)

/-- The loop of `binary.ReadUvarint`, `for i := 0; i < MaxVarintLen64; i++`, with `n` iterations
left, loop counter `i`, shift `s` and accumulator `x`. -/
def ReadUvarint.loop : (n i s x : Nat) → List Byte → Except GoError (Nat × List Byte)
  | 0, _, _, _, _ => .error .errOverflow
  | n + 1, i, s, x, reader =>
    match ReadByte reader with
    | .error err => .error (if i > 0 ∧ err = .EOF then .ErrUnexpectedEOF else err)
    | .ok (b, reader) =>
      if b.val < 0x80 then
        if i = MaxVarintLen64 - 1 ∧ b.val > 1 then .error .errOverflow
        else .ok (x ||| uint64 (b.val <<< s), reader)
      else ReadUvarint.loop n (i + 1) (s + 7) (x ||| uint64 ((b.val &&& 0x7f) <<< s)) reader

/-- Go's `binary.ReadUvarint(reader)`. -/
def ReadUvarint (reader : List Byte) : Except GoError (Nat × List Byte) :=
  ReadUvarint.loop MaxVarintLen64 0 0 0 reader

/-- Go's `binary.Read(reader, binary.BigEndian, &v)` for `v` of type `uint16`. -/
def binaryReadUint16 (reader : List Byte) : Except GoError (Nat × List Byte) :=
  match ReadFull reader 2 with
  | .error err => .error err
  | .ok (bs, reader) => .ok (BigEndian.Uint bs, reader)

/-- Go's `binary.Read(reader, binary.BigEndian, &v)` for `v` of type `bool`: `bs[0] != 0`. -/
def binaryReadBool (reader : List Byte) : Except GoError (Bool × List Byte) :=
  match ReadFull reader 1 with
  | .error err => .error err
  | .ok (bs, reader) => .ok (decide (bs.head? ≠ some 0), reader)

/-- Go's `binary.Read(reader, binary.BigEndian, &v)` for `v` of type `int64`. -/
def binaryReadInt64 (reader : List Byte) : Except GoError (Int × List Byte) :=
  match ReadFull reader 8 with
  | .error err => .error err
  | .ok (bs, reader) => .ok (int64OfUint64 (BigEndian.Uint bs), reader)

/-- Go's `binary.Read(reader, binary.BigEndian, &v)` for `v` of type `int32`. -/
def binaryReadInt32 (reader : List Byte) : Except GoError (Int × List Byte) :=
  match ReadFull reader 4 with
  | .error err => .error err
  | .ok (bs, reader) => .ok (int32OfUint32 (BigEndian.Uint bs), reader)

/-- Go's `binary.Write(writer, binary.BigEndian, v)` for `v` of type `uint16`: one `Write` call. -/
def binaryWriteUint16 (writer : Writer) (v : Nat) : Option GoError × Writer :=
  writer.Write (BigEndian.Put 2 v)

/-- Go's `binary.Write(writer, binary.BigEndian, v)` for `v` of type `bool`: one byte, 1 or 0. -/
def binaryWriteBool (writer : Writer) (v : Bool) : Option GoError × Writer :=
  writer.Write [if v then 1 else 0]

/-- Go's `binary.Write(writer, binary.BigEndian, v)` for `v` of type `int64`. -/
def binaryWriteInt64 (writer : Writer) (v : Int) : Option GoError × Writer :=
  writer.Write (BigEndian.Put 8 (uint64OfInt64 v))

/-- Go's `binary.Write(writer, binary.BigEndian, v)` for `v` of type `int32`. -/
def binaryWriteInt32 (writer : Writer) (v : Int) : Option GoError × Writer :=
  writer.Write (BigEndian.Put 4 (uint32OfInt32 v))

/-! ## `github.com/sagernet/sing/common/rw` -/

/-- The library's `rw.ReadBytes(reader, size)`: `b := make([]byte, size)`, then `io.ReadFull`
into `b`. The buffer is allocated before anything is read, whatever the stream still holds, and
the size is not checked: `make` does not return when `size` is negative or larger than what the
runtime provides. The library is not part of the sources under study. -/
def ReadBytes [Runtime] (reader : List Byte) (size : Int) :
    ReadResult (List Byte × List Byte) :=
  if size < 0 ∨ (Runtime.maxAlloc : Int) < size then .panic
  else
    match ReadFull reader size.toNat with
    | .error err => .error err
    | .ok (b, reader) => .ok (b, reader)

/-- The library's `rw.ReadVString(reader)`: a uvarint length, then `ReadBytes(reader,
int(length))`. The conversion `int(length)` of a length of `2^63` or more is negative. -/
def ReadVString [Runtime] (reader : List Byte) : ReadResult (GoString × List Byte) :=
  match ReadUvarint reader with
  | .error err => .error err
  | .ok (length, reader) =>
    match ReadBytes reader (int64OfUint64 length) with
    | .panic => .panic
    | .error err => .error err
    | .ok (value, reader) => .ok (value, reader)

/-- The library's `rw.WriteUVariant(writer, value)`: one `Write` call with the uvarint bytes. -/
def WriteUVariant (writer : Writer) (value : Nat) : Option GoError × Writer :=
  writer.Write (PutUvarint value)

/-- The library's `rw.WriteString(writer, value)`: one `Write` call with the string's bytes. -/
def WriteString (writer : Writer) (value : GoString) : Option GoError × Writer :=
  writer.Write value

/-- The library's `rw.WriteVString(writer, value)`: `uint64(len(value))` as a uvarint, then the
bytes of `value`. -/
def WriteVString (writer : Writer) (value : GoString) : Option GoError × Writer :=
  match WriteUVariant writer (uint64 value.length) with
  | (some err, writer) => (some err, writer)
  | (none, writer) => WriteString writer value

/-! ## The data model of `command_group.go` -/

/-- The struct `OutboundGroupItem` (the field `Type` is spelled `Type_`). -/
structure OutboundGroupItem where
  Tag : GoString
  Type_ : GoString
  URLTestTime : Int
  URLTestDelay : Int
  deriving DecidableEq, Repr

/-- The struct `OutboundGroup`. The field `items` has type `[]*OutboundGroupItem`: a slot of the
slice is `none` when the pointer is nil. -/
structure OutboundGroup where
  Tag : GoString
  Type_ : GoString
  Selectable : Bool
  Selected : GoString
  items : List (Option OutboundGroupItem)
  deriving DecidableEq, Repr

/-- Modelled from the spec: the iterator made by `newIterator` (declared elsewhere in the package)
is a forward-only, finite, non-restartable sequence over the values it was given. -/
structure Iterator (α : Type) where
  values : List α
  deriving DecidableEq, Repr

/-- Modelled from the spec: `newIterator(values)` iterates over `values` in order. -/
def newIterator {α : Type} (values : List α) : Iterator α := { values := values }

/-- Modelled from the spec: `HasNext()` says whether a value is left. -/
def Iterator.HasNext {α : Type} (it : Iterator α) : Bool := decide (0 < it.values.length)

/-- Modelled from the spec: `Next()` hands out the first value left and advances. -/
def Iterator.Next {α : Type} (it : Iterator α) : Option α × Iterator α :=
  match it.values with
  | [] => (none, it)
  | v :: rest => (some v, { values := rest })

/-! ## `readGroups` -/

/-- The body of the inner loop of `readGroups` (lines 119-138): one item record. -/
def readGroups.item [Runtime] (reader : List Byte) :
    ReadResult (OutboundGroupItem × List Byte) :=
  match ReadVString reader with
  | .panic => .panic
  | .error err => .error err
  | .ok (tag, reader) =>
    match ReadVString reader with
    | .panic => .panic
    | .error err => .error err
    | .ok (type, reader) =>
      match binaryReadInt64 reader with
      | .error err => .error err
      | .ok (time, reader) =>
        match binaryReadInt32 reader with
        | .error err => .error err
        | .ok (delay, reader) =>
          .ok ({ Tag := tag, Type_ := type, URLTestTime := time, URLTestDelay := delay }, reader)

/-- The inner loop of `readGroups`, `for j := 0; j < int(itemLength); j++`, with `n` iterations
left: each iteration stores `&item` in slot `j` of `group.items`. -/
def readGroups.itemLoop [Runtime] : (n j : Nat) → List (Option OutboundGroupItem) → List Byte →
    ReadResult (List (Option OutboundGroupItem) × List Byte)
  | 0, _, items, reader => .ok (items, reader)
  | n + 1, j, items, reader =>
    match readGroups.item reader with
    | .panic => .panic
    | .error err => .error err
    | .ok (item, reader) => readGroups.itemLoop n (j + 1) (items.set j (some item)) reader

/-- The body of the outer loop of `readGroups` (lines 90-141): one group record.
`make([]*OutboundGroupItem, itemLength)` is a slice of `itemLength` nil pointers; `itemLength`
is a `uint16`, so that this allocation is one of at most 65535 pointers, and it is taken to
succeed. -/
def readGroups.group [Runtime] (reader : List Byte) : ReadResult (OutboundGroup × List Byte) :=
  match ReadVString reader with
  | .panic => .panic
  | .error err => .error err
  | .ok (tag, reader) =>
    match ReadVString reader with
    | .panic => .panic
    | .error err => .error err
    | .ok (type, reader) =>
      match binaryReadBool reader with
      | .error err => .error err
      | .ok (selectable, reader) =>
        match ReadVString reader with
        | .panic => .panic
        | .error err => .error err
        | .ok (selected, reader) =>
          match binaryReadUint16 reader with
          | .error err => .error err
          | .ok (itemLength, reader) =>
            match readGroups.itemLoop itemLength 0 (List.replicate itemLength none) reader with
            | .panic => .panic
            | .error err => .error err
            | .ok (items, reader) =>
              .ok ({ Tag := tag, Type_ := type, Selectable := selectable, Selected := selected,
                     items := items }, reader)

/-- The outer loop of `readGroups`, `for i := 0; i < int(groupLength); i++`, with `n` iterations
left: each iteration appends `&group` to `groups`. -/
def readGroups.groupLoop [Runtime] : (n : Nat) → List OutboundGroup → List Byte →
    ReadResult (List OutboundGroup × List Byte)
  | 0, groups, reader => .ok (groups, reader)
  | n + 1, groups, reader =>
    match readGroups.group reader with
    | .panic => .panic
    | .error err => .error err
    | .ok (group, reader) => readGroups.groupLoop n (groups ++ [group]) reader

/-- The function `readGroups(reader)`: the iterator over the decoded groups and the bytes the
reader still holds, or the error, or the panic of a vstring read. -/
def readGroups [Runtime] (reader : List Byte) :
    ReadResult (Iterator OutboundGroup × List Byte) :=
  match binaryReadUint16 reader with
  | .error err => .error err
  | .ok (groupLength, reader) =>
    match readGroups.groupLoop groupLength [] reader with
    | .panic => .panic
    | .error err => .error err
    | .ok (groups, reader) => .ok (newIterator groups, reader)

/-! ## `writeGroups` -/

/-- The interface `adapter.OutboundGroup` as `writeGroups` uses it: `Now()`, `All()`, and whether
the dynamic type is `*outbound.Selector`. -/
structure OutboundGroupCapability where
  Now : GoString
  All : List GoString
  isSelector : Bool
  deriving DecidableEq, Repr

/-- The interface `adapter.Outbound` as `writeGroups` uses it: `Tag()`, `Type()`, and the outcome
of the type assertion `it.(adapter.OutboundGroup)`. -/
structure Outbound where
  Tag : GoString
  Type_ : GoString
  group : Option OutboundGroupCapability
  deriving DecidableEq, Repr

/-- The struct `urltest.History`: `Time` as Unix seconds (`Time.Unix()`), `Delay` a `uint16`. -/
structure History where
  Time : Int
  Delay : Nat
  deriving DecidableEq, Repr

/-- What `writeGroups` reads from its `*BoxService`: the router's `Outbounds()` and
`Outbound(tag)`, the helper `adapter.OutboundTag`, and the history storage's
`LoadURLTestHistory(tag)` (`none` is a nil `*History`). -/
structure BoxService where
  Outbounds : List Outbound
  Outbound : GoString → Option Libbox.Outbound
  OutboundTag : Libbox.Outbound → GoString
  LoadURLTestHistory : GoString → Option History

/-- Lines 151-156: the outbounds that pass the type assertion `it.(adapter.OutboundGroup)`,
appended to `iGroups` in the order of `outbounds`. -/
def writeGroups.iGroups (outbounds : List Outbound) : List (Outbound × OutboundGroupCapability) :=
  outbounds.foldl
    (fun iGroups it =>
      match it.group with
      | some group => iGroups ++ [(it, group)]
      | none => iGroups)
    []

/-- Lines 171-177: the item built for the member tag `itemTag` that resolved to `itemOutbound`.
The fields `URLTestTime` and `URLTestDelay` keep their zero values unless the history storage
has a record. -/
def writeGroups.item (boxService : BoxService) (itemTag : GoString) (itemOutbound : Outbound) :
    OutboundGroupItem :=
  let item : OutboundGroupItem :=
    { Tag := itemTag, Type_ := itemOutbound.Type_, URLTestTime := 0, URLTestDelay := 0 }
  match boxService.LoadURLTestHistory (boxService.OutboundTag itemOutbound) with
  | some history =>
    { item with URLTestTime := history.Time, URLTestDelay := int32OfUint16 history.Delay }
  | none => item

/-- Lines 165-179: the loop over `iGroup.All()`; a tag that the router does not resolve is
skipped (`continue`), the others append `&item` to `group.items`. -/
def writeGroups.items (boxService : BoxService) (all : List GoString) :
    List (Option OutboundGroupItem) :=
  all.foldl
    (fun items itemTag =>
      match boxService.Outbound itemTag with
      | none => items
      | some itemOutbound => items ++ [some (writeGroups.item boxService itemTag itemOutbound)])
    []

/-- Lines 159-180: the body of the loop over `iGroups`. -/
def writeGroups.group (boxService : BoxService) (iGroup : Outbound × OutboundGroupCapability) :
    OutboundGroup :=
  { Tag := iGroup.1.Tag
    Type_ := iGroup.1.Type_
    Selectable := iGroup.2.isSelector
    Selected := iGroup.2.Now
    items := writeGroups.items boxService iGroup.2.All }

/-- Lines 148-181: the snapshot `groups` that `writeGroups` builds before it writes anything. -/
def writeGroups.build (boxService : BoxService) : List OutboundGroup :=
  (writeGroups.iGroups boxService.Outbounds).foldl
    (fun groups iGroup => groups ++ [writeGroups.group boxService iGroup])
    []

/-- Lines 208-225: the loop over `group.items`. -/
def writeGroups.encodeItems : Writer → List (Option OutboundGroupItem) → Option GoError × Writer
  | writer, [] => (none, writer)
  | writer, none :: _ => (some .nilPointer, writer)
  | writer, some item :: rest =>
    match WriteVString writer item.Tag with
    | (some err, writer) => (some err, writer)
    | (none, writer) =>
      match WriteVString writer item.Type_ with
      | (some err, writer) => (some err, writer)
      | (none, writer) =>
        match binaryWriteInt64 writer item.URLTestTime with
        | (some err, writer) => (some err, writer)
        | (none, writer) =>
          match binaryWriteInt32 writer item.URLTestDelay with
          | (some err, writer) => (some err, writer)
          | (none, writer) => writeGroups.encodeItems writer rest

/-- Lines 187-226: the loop over `groups`. -/
def writeGroups.encodeGroups : Writer → List OutboundGroup → Option GoError × Writer
  | writer, [] => (none, writer)
  | writer, group :: rest =>
    match WriteVString writer group.Tag with
    | (some err, writer) => (some err, writer)
    | (none, writer) =>
      match WriteVString writer group.Type_ with
      | (some err, writer) => (some err, writer)
      | (none, writer) =>
        match binaryWriteBool writer group.Selectable with
        | (some err, writer) => (some err, writer)
        | (none, writer) =>
          match WriteVString writer group.Selected with
          | (some err, writer) => (some err, writer)
          | (none, writer) =>
            match binaryWriteUint16 writer (uint16 group.items.length) with
            | (some err, writer) => (some err, writer)
            | (none, writer) =>
              match writeGroups.encodeItems writer group.items with
              | (some err, writer) => (some err, writer)
              | (none, writer) => writeGroups.encodeGroups writer rest

/-- Lines 183-227: the encoding half of `writeGroups`, applied to the snapshot `groups`. -/
def writeGroups.encode (writer : Writer) (groups : List OutboundGroup) : Option GoError × Writer :=
  match binaryWriteUint16 writer (uint16 groups.length) with
  | (some err, writer) => (some err, writer)
  | (none, writer) => writeGroups.encodeGroups writer groups

/-- The function `writeGroups(writer, boxService)`. -/
def writeGroups (writer : Writer) (boxService : BoxService) : Option GoError × Writer :=
  writeGroups.encode writer (writeGroups.build boxService)

/-! ## `CommandClient.handleGroupConn` -/

/-- A call of the client loop on its handler. -/
inductive HandlerCall where
  | WriteGroups (message : Iterator OutboundGroup)
  | Disconnected (message : String)
  deriving DecidableEq, Repr

/-- The loop of `CommandClient.handleGroupConn(conn)` run for at most `fuel` iterations on a
connection that delivers `conn` and then end of stream: the handler calls in order, or `none`
when `fuel` iterations did not end the loop. The loop ends at its `return`, after the call of
`Disconnected`, or at a panic of `readGroups`, which unwinds the method before it calls the
handler again. -/
def CommandClient.handleGroupConn [Runtime] :
    (fuel : Nat) → (conn : List Byte) → Option (List HandlerCall)
  | 0, _ => none
  | fuel + 1, conn =>
    match readGroups conn with
    | .panic => some []
    | .error err => some [HandlerCall.Disconnected err.Error]
    | .ok (groups, conn) =>
      match CommandClient.handleGroupConn fuel conn with
      | none => none
      | some calls => some (HandlerCall.WriteGroups groups :: calls)

/-! ## The frame layout of the specification

The byte layout that section 4.1 of the specification prescribes, written with plain
arithmetic and independently of the Go functions above. -/

/-- The natural `v` as `width` bytes, most significant first (base 256, big-endian). -/
def Layout.bytesBE : (width : Nat) → Nat → List Byte
  | 0, _ => []
  | width + 1, v => byte (v / 256 ^ width) :: Layout.bytesBE width v

/-- The two's complement representative of `x` on `width` bytes. -/
def Layout.twosComplement (width : Nat) (x : Int) : Nat := (x % 256 ^ width).toNat

/-- Unsigned LEB128 with at most `fuel + 1` bytes. -/
def Layout.uvarint.go : (fuel : Nat) → Nat → List Byte
  | 0, n => [byte n]
  | fuel + 1, n =>
    if n < 128 then [byte n] else byte (n % 128 + 128) :: Layout.uvarint.go fuel (n / 128)

/-- Unsigned LEB128: seven bits per byte, least significant group first, the high bit set on
every byte but the last. -/
def Layout.uvarint (n : Nat) : List Byte := Layout.uvarint.go n n

/-- The layout `vstring`: the LEB128 byte length of the string, then its bytes. -/
def Layout.vstring (s : GoString) : List Byte := Layout.uvarint s.length ++ s

/-- The layout `u8(bool)`: 1 is true, 0 is false. -/
def Layout.bool (b : Bool) : List Byte := [if b then 1 else 0]

/-- The layout of one item record. -/
def Layout.item (item : OutboundGroupItem) : List Byte :=
  Layout.vstring item.Tag ++ (Layout.vstring item.Type_ ++
    (Layout.bytesBE 8 (Layout.twosComplement 8 item.URLTestTime) ++
      Layout.bytesBE 4 (Layout.twosComplement 4 item.URLTestDelay)))

/-- The layout of the item records of a group, in order (a nil slot has no record). -/
def Layout.items : List (Option OutboundGroupItem) → List Byte
  | [] => []
  | some item :: rest => Layout.item item ++ Layout.items rest
  | none :: rest => Layout.items rest

/-- The layout of one group record. -/
def Layout.group (group : OutboundGroup) : List Byte :=
  Layout.vstring group.Tag ++ (Layout.vstring group.Type_ ++ (Layout.bool group.Selectable ++
    (Layout.vstring group.Selected ++ (Layout.bytesBE 2 group.items.length ++
      Layout.items group.items))))

/-- The layout of the group records of a snapshot, in order. -/
def Layout.groups : List OutboundGroup → List Byte
  | [] => []
  | group :: rest => Layout.group group ++ Layout.groups rest

/-- The layout of a frame: the group count, then the group records. -/
def Layout.frame (groups : List OutboundGroup) : List Byte :=
  Layout.bytesBE 2 groups.length ++ Layout.groups groups

/-! ## Values that exist in Go -/

/-- An `OutboundGroupItem` that exists in Go: string lengths fit an `int`, `URLTestTime` is an
`int64` and `URLTestDelay` is an `int32`. -/
def OutboundGroupItem.Valid (item : OutboundGroupItem) : Prop :=
  item.Tag.length < 2 ^ 63 ∧ item.Type_.length < 2 ^ 63 ∧
    -2 ^ 63 ≤ item.URLTestTime ∧ item.URLTestTime < 2 ^ 63 ∧
    -2 ^ 31 ≤ item.URLTestDelay ∧ item.URLTestDelay < 2 ^ 31

instance (item : OutboundGroupItem) : Decidable item.Valid := by
  unfold OutboundGroupItem.Valid
  infer_instance

/-- A slot of `items` that holds a pointer to a valid item (not nil). -/
def SlotValid : Option OutboundGroupItem → Prop
  | some item => item.Valid
  | none => False

instance (slot : Option OutboundGroupItem) : Decidable (SlotValid slot) := by
  cases slot with
  | none => exact isFalse (fun h => h)
  | some item => exact inferInstanceAs (Decidable item.Valid)

/-- An `OutboundGroup` of the specification's data model as it exists in Go: string lengths fit
an `int` and every slot of `items` points to a valid item. -/
def OutboundGroup.Valid (group : OutboundGroup) : Prop :=
  group.Tag.length < 2 ^ 63 ∧ group.Type_.length < 2 ^ 63 ∧ group.Selected.length < 2 ^ 63 ∧
    ∀ slot ∈ group.items, SlotValid slot

instance (group : OutboundGroup) : Decidable group.Valid := by
  unfold OutboundGroup.Valid
  infer_instance

/-- A well-formed snapshot: every group is valid. -/
def SnapshotValid (groups : List OutboundGroup) : Prop := ∀ group ∈ groups, group.Valid

instance (groups : List OutboundGroup) : Decidable (SnapshotValid groups) := by
  unfold SnapshotValid
  infer_instance

/-- The counts of the snapshot fit the `u16` fields of the frame: at most 65535 groups and at
most 65535 items in each group. -/
def CountsFit (groups : List OutboundGroup) : Prop :=
  groups.length ≤ 65535 ∧ ∀ group ∈ groups, group.items.length ≤ 65535

instance (groups : List OutboundGroup) : Decidable (CountsFit groups) := by
  unfold CountsFit
  infer_instance

/-- The writer `writer` after accepting the bytes `bs` in `k` further `Write` calls. -/
def Writer.advance (writer : Writer) (bs : List Byte) (k : Nat) : Writer :=
  { writer with written := writer.written ++ bs, calls := writer.calls + k }

/-- A writer none of whose `Write` calls fails. -/
def Writer.Reliable (writer : Writer) : Prop := ∀ k, writer.fails k = none

/-- The number of `Write` calls that the encoding of the group records issues. -/
def writeGroups.encodeCalls : List OutboundGroup → Nat
  | [] => 0
  | group :: rest => 8 + 6 * group.items.length + writeGroups.encodeCalls rest

/-- The example snapshot of the specification: one group `auto` of kind `urltest`, not
selectable, nothing selected, with the single item `us` of kind `direct` checked at
1700000000 with a delay of 42. -/
def exampleSnapshot : List OutboundGroup :=
  [{ Tag := [0x61, 0x75, 0x74, 0x6f]
     Type_ := [0x75, 0x72, 0x6c, 0x74, 0x65, 0x73, 0x74]
     Selectable := false
     Selected := []
     items := [some { Tag := [0x75, 0x73]
                      Type_ := [0x64, 0x69, 0x72, 0x65, 0x63, 0x74]
                      URLTestTime := 1700000000
                      URLTestDelay := 42 }] }]

/-- The 41 bytes of the frame of the example snapshot. -/
def exampleFrame : List Byte :=
  [0x00, 0x01,
   0x04, 0x61, 0x75, 0x74, 0x6f,
   0x07, 0x75, 0x72, 0x6c, 0x74, 0x65, 0x73, 0x74,
   0x00,
   0x00,
   0x00, 0x01,
   0x02, 0x75, 0x73,
   0x06, 0x64, 0x69, 0x72, 0x65, 0x63, 0x74,
   0x00, 0x00, 0x00, 0x00, 0x65, 0x53, 0xF1, 0x00,
   0x00, 0x00, 0x00, 0x2A]

/-- A snapshot of 65536 groups, each with empty strings and no item. -/
def groups65536 : List OutboundGroup :=
  List.replicate 65536 { Tag := [], Type_ := [], Selectable := false, Selected := [], items := [] }

/-- The group record that starts `reader` declares `itemLength` items: after the vstrings of tag
and kind, the selectable byte and the vstring of selected, the `u16` read is `itemLength`. -/
def DeclaredItemCount [Runtime] (reader : List Byte) (itemLength : Nat) : Prop :=
  ∃ tag r1 type r2 selectable r3 selected r4 r5,
    ReadVString reader = .ok (tag, r1) ∧ ReadVString r1 = .ok (type, r2) ∧
    binaryReadBool r2 = .ok (selectable, r3) ∧ ReadVString r3 = .ok (selected, r4) ∧
    binaryReadUint16 r4 = .ok (itemLength, r5)

/-- Reading frames from `conn` one after the other with `readGroups` yields the snapshots
`delivered`, in order, and leaves `rest` unread. -/
inductive ReadsFrames [Runtime] : List Byte → List (Iterator OutboundGroup) → List Byte → Prop
  | done (conn : List Byte) : ReadsFrames conn [] conn
  | frame {conn conn' rest : List Byte} {it : Iterator OutboundGroup}
      {delivered : List (Iterator OutboundGroup)} :
      readGroups conn = .ok (it, conn') → ReadsFrames conn' delivered rest →
      ReadsFrames conn (it :: delivered) rest

/-! ## `CommandServer.handleGroupConn` -/

/-- The outcome of one execution of the `select` statement of the push loop (lines 73-77):
a wake from `s.urlTestUpdate`, or `ctx.Done()` with `err = ctx.Err()`. -/
inductive WaitEvent where
  | wake
  | done (err : GoError)
  deriving DecidableEq, Repr

/-- Whether the outcome of the `select` is a wake. -/
def WaitEvent.isWake : WaitEvent → Bool
  | .wake => true
  | .done _ => false

/-- How a run of the push loop ends: it returned `err`, or it is blocked in its `select`
because nothing more happens. -/
inductive ServerExit where
  | returned (err : GoError)
  | suspended
  deriving DecidableEq, Repr

/-- What a run of the push loop did: how it ended, the connection afterwards, the bytes that
each push put on the connection (in order), how many times the wait step was entered, and
whether the deferred `conn.Close()` has run. -/
structure ServerRun where
  exit : ServerExit
  conn : Writer
  pushes : List (List Byte)
  waits : Nat
  closed : Bool

/-- Lines 61-72: one push. With a service attached the loop calls `writeGroups`; with none it
writes `uint16(0)` and touches neither router nor history storage. -/
def CommandServer.handleGroupConn.push (service : Option BoxService) (conn : Writer) :
    Option GoError × Writer :=
  match service with
  | some service => writeGroups conn service
  | none => binaryWriteUint16 conn (uint16 0)

/-- The bytes that a push added to the connection `before`, given the connection `after`. -/
def CommandServer.handleGroupConn.pushed (before after : Writer) : List Byte :=
  after.written.drop before.written.length

/-- The loop of `CommandServer.handleGroupConn` from its iteration number `i` on. `services i`
is the value of `s.service` that the iteration `i` reads; `events` are the outcomes of the
successive `select` statements, and when they are used up the loop stays blocked. -/
def CommandServer.handleGroupConn.loop (services : Nat → Option BoxService) :
    (events : List WaitEvent) → (i : Nat) → (conn : Writer) → ServerRun
  | [], i, conn =>
    match CommandServer.handleGroupConn.push (services i) conn with
    | (some err, after) =>
      { exit := .returned err, conn := after, waits := 0, closed := true
        pushes := [CommandServer.handleGroupConn.pushed conn after] }
    | (none, after) =>
      { exit := .suspended, conn := after, waits := 1, closed := false
        pushes := [CommandServer.handleGroupConn.pushed conn after] }
  | .done ctxErr :: _, i, conn =>
    match CommandServer.handleGroupConn.push (services i) conn with
    | (some err, after) =>
      { exit := .returned err, conn := after, waits := 0, closed := true
        pushes := [CommandServer.handleGroupConn.pushed conn after] }
    | (none, after) =>
      { exit := .returned ctxErr, conn := after, waits := 1, closed := true
        pushes := [CommandServer.handleGroupConn.pushed conn after] }
  | .wake :: events, i, conn =>
    match CommandServer.handleGroupConn.push (services i) conn with
    | (some err, after) =>
      { exit := .returned err, conn := after, waits := 0, closed := true
        pushes := [CommandServer.handleGroupConn.pushed conn after] }
    | (none, after) =>
      let run := CommandServer.handleGroupConn.loop services events (i + 1) after
      { run with
        waits := run.waits + 1
        pushes := CommandServer.handleGroupConn.pushed conn after :: run.pushes }

/-- The method `CommandServer.handleGroupConn(conn)`. -/
def CommandServer.handleGroupConn (services : Nat → Option BoxService)
    (events : List WaitEvent) (conn : Writer) : ServerRun :=
  CommandServer.handleGroupConn.loop services events 0 conn

/-- Modelled from the spec: the coalescing notifier `s.urlTestUpdate` (declared elsewhere in
the package) is a single-slot signal; `pending` says whether a signal waits to be consumed. -/
structure Notifier where
  pending : Bool
  deriving DecidableEq, Repr

/-- Modelled from the spec: posting sets the signal; posting when a signal is already pending
is a no-op. -/
def Notifier.post (_ : Notifier) : Notifier := { pending := true }

/-- Modelled from the spec: a waiter consumes exactly one pending signal; with none pending
it stays suspended (`none`). -/
def Notifier.receive (notifier : Notifier) : Option Notifier :=
  if notifier.pending then some { pending := false } else none

/-- The outcomes that at most `fuel` successive `select` statements of the push loop obtain
from the notifier when nothing more is posted and the context is not done, with the notifier
they leave behind. -/
def Notifier.drain : (fuel : Nat) → Notifier → List WaitEvent × Notifier
  | 0, notifier => ([], notifier)
  | fuel + 1, notifier =>
    match notifier.receive with
    | none => ([], notifier)
    | some notifier => (WaitEvent.wake :: (Notifier.drain fuel notifier).1,
        (Notifier.drain fuel notifier).2)

/-- The notifier after `n` posts. -/
def Notifier.posts : (n : Nat) → Notifier → Notifier
  | 0, notifier => notifier
  | n + 1, notifier => Notifier.posts n notifier.post

/-- The `Write` calls that the encoding of a snapshot issues: one for the group count, then
those of the group records. -/
def writeGroups.calls (groups : List OutboundGroup) : Nat := 1 + writeGroups.encodeCalls groups

/-- An engine state whose built snapshot is the example snapshot: the group outbound `auto`
with the single member `us`, a `direct` outbound checked at 1700000000 with a delay of 42. -/
def exampleService : BoxService :=
  { Outbounds :=
      [{ Tag := [0x61, 0x75, 0x74, 0x6f], Type_ := [0x75, 0x72, 0x6c, 0x74, 0x65, 0x73, 0x74]
         group := some { Now := [], All := [[0x75, 0x73]], isSelector := false } },
       { Tag := [0x75, 0x73], Type_ := [0x64, 0x69, 0x72, 0x65, 0x63, 0x74], group := none }]
    Outbound := fun tag =>
      if tag = [0x75, 0x73] then
        some { Tag := [0x75, 0x73], Type_ := [0x64, 0x69, 0x72, 0x65, 0x63, 0x74], group := none }
      else none
    OutboundTag := fun outbound => outbound.Tag
    LoadURLTestHistory := fun tag =>
      if tag = [0x75, 0x73] then some { Time := 1700000000, Delay := 42 } else none }

/-- A group outbound with empty strings and no member. -/
def emptyGroupOutbound : Outbound :=
  { Tag := [], Type_ := [], group := some { Now := [], All := [], isSelector := false } }

/-- An engine state with 65536 group outbounds, each with empty strings and no member. -/
def service65536 : BoxService :=
  { Outbounds := List.replicate 65536 emptyGroupOutbound
    Outbound := fun _ => none
    OutboundTag := fun outbound => outbound.Tag
    LoadURLTestHistory := fun _ => none }

/-- A connection whose `Write` call number `k` fails with `err` and whose other calls
succeed. -/
def Writer.failingAt (k : Nat) (err : GoError) : Writer :=
  { written := [], calls := 0, fails := fun j => if j = k then some err else none }

/-- An engine state with a single outbound, `us` of kind `direct`, and no group outbound. -/
def serviceWithoutGroups : BoxService :=
  { Outbounds :=
      [{ Tag := [0x75, 0x73], Type_ := [0x64, 0x69, 0x72, 0x65, 0x63, 0x74], group := none }]
    Outbound := fun _ => none
    OutboundTag := fun outbound => outbound.Tag
    LoadURLTestHistory := fun _ => none }

/-- A group with empty strings and no item that is selectable. -/
def selectableGroup : OutboundGroup :=
  { Tag := [], Type_ := [], Selectable := true, Selected := [], items := [] }

/-- Go's `if err != nil { return err }` after a write: stop with the error, or go on with the
writer. -/
def Writer.andThen (r : Option GoError × Writer) (k : Writer → Option GoError × Writer) :
    Option GoError × Writer :=
  match r with
  | (some err, writer) => (some err, writer)
  | (none, writer) => k writer

/-- The function `f` issues `c` successive `Write` calls and stops at the first one that
fails: it leaves the outcome script of the writer alone; when none of the `c` calls fails it
returns no error after exactly `c` calls; when the call number `k < c` is the first to fail,
with `err`, it returns `err` after exactly `k + 1` calls. -/
def Sequential (f : Writer → Option GoError × Writer) (c : Nat) : Prop :=
  ∀ writer : Writer,
    (f writer).2.fails = writer.fails ∧
    ((∀ j, j < c → writer.fails (writer.calls + j) = none) →
      (f writer).1 = none ∧ (f writer).2.calls = writer.calls + c) ∧
    (∀ k err, k < c → (∀ j, j < k → writer.fails (writer.calls + j) = none) →
      writer.fails (writer.calls + k) = some err →
      (f writer).1 = some err ∧ (f writer).2.calls = writer.calls + k + 1)

/-- A frame that declares one group whose tag has a length of `2^63` bytes: the group count
`00 01`, the uvarint `80 80 80 80 80 80 80 80 80 01`, then the two bytes `61 62`. The
conversion `int(length)` of this length is negative. -/
def frameWithNegativeLength : List Byte :=
  [0x00, 0x01, 0x80, 0x80, 0x80, 0x80, 0x80, 0x80, 0x80, 0x80, 0x80, 0x01, 0x61, 0x62]

/-- A frame that declares one group whose tag has a length of `2^62` bytes: the group count
`00 01`, the uvarint `80 80 80 80 80 80 80 80 40`, then the two bytes `61 62`. -/
def frameWithHugeLength : List Byte :=
  [0x00, 0x01, 0x80, 0x80, 0x80, 0x80, 0x80, 0x80, 0x80, 0x80, 0x40, 0x61, 0x62]

/-! ## Lemmas -/

theorem byte_val (x : Nat) : (byte x).val = x % 256 := rfl

theorem byte_of_val (b : Byte) : byte b.val = b := by
  apply Fin.ext
  simp [byte_val, Nat.mod_eq_of_lt b.isLt]

theorem BigEndian.Put_eq_bytesBE (width v : Nat) :
    BigEndian.Put width v = Layout.bytesBE width v := by
  induction width with
  | zero => rfl
  | succ w ih =>
    simp only [BigEndian.Put, Layout.bytesBE, ih, Nat.shiftRight_eq_div_pow]
    rw [Nat.pow_mul]

theorem Layout.length_bytesBE (width v : Nat) : (Layout.bytesBE width v).length = width := by
  induction width with
  | zero => rfl
  | succ w ih => simp [Layout.bytesBE, ih]

theorem shiftLeft_or_byte (acc : Nat) (b : Byte) : acc <<< 8 ||| b.val = acc * 256 + b.val := by
  have h := Nat.mul_add_lt_is_or (i := 8) (b := b.val) (by have := b.isLt; omega) acc
  rw [Nat.shiftLeft_eq, Nat.mul_comm acc]
  exact h.symm

theorem BigEndian.foldl_bytesBE (width v acc : Nat) :
    (Layout.bytesBE width v).foldl (fun acc b => acc <<< 8 ||| b.val) acc
      = acc * 256 ^ width + v % 256 ^ width := by
  induction width generalizing acc with
  | zero => simp [Layout.bytesBE, Nat.mod_one]
  | succ w ih =>
    rw [Layout.bytesBE, List.foldl_cons, ih, shiftLeft_or_byte, byte_val,
      Nat.mod_pow_succ (x := v) (b := 256) (k := w)]
    ring

theorem BigEndian.Uint_bytesBE (width v : Nat) :
    BigEndian.Uint (Layout.bytesBE width v) = v % 256 ^ width := by
  simp [BigEndian.Uint, BigEndian.foldl_bytesBE]

set_option maxRecDepth 100000 in
theorem byte_or_0x80 : ∀ b : Byte, b.val ||| 0x80 = b.val % 128 + 128 := by decide

theorem or_shiftLeft (acc v s : Nat) (h : acc < 2 ^ s) : acc ||| v <<< s = acc + v * 2 ^ s := by
  have h1 := Nat.mul_add_lt_is_or h v
  rw [Nat.shiftLeft_eq, Nat.lor_comm, Nat.mul_comm v, ← h1, Nat.add_comm]

theorem and_0x7f (v : Nat) : v &&& 0x7f = v % 128 :=
  Nat.and_pow_two_sub_one_eq_mod v 7

theorem PutUvarint.loop_eq_go (m : Nat) : ∀ (fuel x : Nat), x < 128 ^ (m + 1) → x ≤ fuel →
    PutUvarint.loop m x = Layout.uvarint.go fuel x := by
  induction m with
  | zero =>
    intro fuel x hx _
    have hx' : x < 128 := by simpa using hx
    cases fuel with
    | zero => rfl
    | succ f => simp [PutUvarint.loop, Layout.uvarint.go, hx']
  | succ m ih =>
    intro fuel x hx hf
    cases fuel with
    | zero =>
      have : x = 0 := by omega
      subst this
      simp [PutUvarint.loop, Layout.uvarint.go]
    | succ f =>
      by_cases h : x < 128
      · have h' : ¬ x ≥ 0x80 := by omega
        simp [PutUvarint.loop, Layout.uvarint.go, h, h']
      · have h' : x ≥ 0x80 := by omega
        have hdiv : x / 128 < 128 ^ (m + 1) := by
          apply Nat.div_lt_of_lt_mul
          rw [pow_succ] at hx
          omega
        have hle : x / 128 ≤ f := by omega
        have hb : (byte x).val ||| 0x80 = x % 128 + 128 := by
          rw [byte_or_0x80, byte_val]
          omega
        simp only [PutUvarint.loop, Layout.uvarint.go, h, h', if_true, if_false, hb,
          Nat.shiftRight_eq_div_pow]
        rw [show (2 : Nat) ^ 7 = 128 from rfl, ih f (x / 128) hdiv hle]

theorem PutUvarint_eq_uvarint (x : Nat) (hx : x < 2 ^ 64) : PutUvarint x = Layout.uvarint x := by
  unfold PutUvarint Layout.uvarint MaxVarintLen64
  apply PutUvarint.loop_eq_go
  · calc x < 2 ^ 64 := hx
      _ ≤ 128 ^ (10 + 1) := by norm_num
  · exact le_refl _

theorem or_uint64_shiftLeft (acc v s : Nat) (h : acc < 2 ^ s) (hv : v * 2 ^ s < 2 ^ 64) :
    acc ||| uint64 (v <<< s) = acc + v * 2 ^ s := by
  have h1 : uint64 (v <<< s) = v <<< s := by
    rw [uint64, Nat.shiftLeft_eq, Nat.mod_eq_of_lt hv]
  rw [h1, or_shiftLeft _ _ _ h]

theorem ReadUvarint.loop_last (n i s x : Nat) (b : Byte) (rest : List Byte)
    (hb : b.val < 0x80) (hi : ¬ (i = MaxVarintLen64 - 1 ∧ b.val > 1)) :
    ReadUvarint.loop (n + 1) i s x (b :: rest) = .ok (x ||| uint64 (b.val <<< s), rest) := by
  simp only [ReadUvarint.loop, ReadByte, hb, if_true, hi, if_false]

theorem ReadUvarint.loop_more (n i s x : Nat) (b : Byte) (rest : List Byte)
    (hb : ¬ b.val < 0x80) :
    ReadUvarint.loop (n + 1) i s x (b :: rest)
      = ReadUvarint.loop n (i + 1) (s + 7) (x ||| uint64 ((b.val &&& 0x7f) <<< s)) rest := by
  simp only [ReadUvarint.loop, ReadByte, hb, if_false]

theorem ReadUvarint.loop_go (fuel : Nat) : ∀ (i acc x : Nat) (rest : List Byte),
    i ≤ 9 → x < 2 ^ (64 - 7 * i) → acc < 2 ^ (7 * i) → x ≤ fuel →
    ReadUvarint.loop (10 - i) i (7 * i) acc (Layout.uvarint.go fuel x ++ rest)
      = .ok (acc + x * 2 ^ (7 * i), rest) := by
  induction fuel with
  | zero =>
    intro i acc x rest hi _ hacc hf
    have hx0 : x = 0 := by omega
    subst hx0
    obtain ⟨n, hn⟩ : ∃ n, 10 - i = n + 1 := ⟨9 - i, by omega⟩
    rw [hn]
    simp only [Layout.uvarint.go, List.singleton_append]
    rw [ReadUvarint.loop_last _ _ _ _ _ _ (by simp [byte_val]) (by simp [byte_val])]
    simp [byte_val, uint64]
  | succ f ih =>
    intro i acc x rest hi hx hacc hf
    obtain ⟨n, hn⟩ : ∃ n, 10 - i = n + 1 := ⟨9 - i, by omega⟩
    by_cases h : x < 128
    · have hbv : (byte x).val = x := by rw [byte_val]; omega
      have hsmall : x * 2 ^ (7 * i) < 2 ^ 64 := by
        calc x * 2 ^ (7 * i) < 2 ^ (64 - 7 * i) * 2 ^ (7 * i) :=
              Nat.mul_lt_mul_of_pos_right hx (by positivity)
          _ = 2 ^ 64 := by rw [← pow_add]; congr 1; omega
      rw [hn]
      simp only [Layout.uvarint.go, h, if_true, List.singleton_append]
      rw [ReadUvarint.loop_last _ _ _ _ _ _ (by rw [hbv]; exact h)]
      · rw [hbv, or_uint64_shiftLeft _ _ _ hacc hsmall]
      · rintro ⟨h9, h1⟩
        rw [hbv] at h1
        have : i = 9 := by simpa [MaxVarintLen64] using h9
        subst this
        norm_num at hx
        omega
    · have hb : (byte (x % 128 + 128)).val = x % 128 + 128 := by rw [byte_val]; omega
      have hi8 : i ≤ 8 := by
        by_contra hc
        have : i = 9 := by omega
        subst this
        norm_num at hx
        omega
      have hx' : x / 128 < 2 ^ (64 - 7 * (i + 1)) := by
        apply Nat.div_lt_of_lt_mul
        have : (128 : Nat) * 2 ^ (64 - 7 * (i + 1)) = 2 ^ (64 - 7 * i) := by
          rw [show (128 : Nat) = 2 ^ 7 from rfl, ← pow_add]; congr 1; omega
        omega
      have hlow : (x % 128) * 2 ^ (7 * i) < 2 ^ 64 := by
        calc (x % 128) * 2 ^ (7 * i) < 2 ^ 7 * 2 ^ (7 * i) :=
              Nat.mul_lt_mul_of_pos_right (by norm_num; omega) (by positivity)
          _ = 2 ^ (7 + 7 * i) := by rw [← pow_add]
          _ ≤ 2 ^ 64 := Nat.pow_le_pow_right (by norm_num) (by omega)
      have hacc' : acc + (x % 128) * 2 ^ (7 * i) < 2 ^ (7 * (i + 1)) := by
        have h1 : (x % 128) * 2 ^ (7 * i) ≤ 127 * 2 ^ (7 * i) :=
          Nat.mul_le_mul_right _ (by omega)
        have h2 : (2 : Nat) ^ (7 * (i + 1)) = 128 * 2 ^ (7 * i) := by
          rw [show (128 : Nat) = 2 ^ 7 from rfl, ← pow_add]; congr 1; omega
        omega
      have hn' : 10 - (i + 1) = n := by omega
      rw [hn]
      simp only [Layout.uvarint.go, h, if_false, List.cons_append]
      rw [ReadUvarint.loop_more _ _ _ _ _ _ (by rw [hb]; omega), hb, and_0x7f,
        show (x % 128 + 128) % 128 = x % 128 by omega, or_uint64_shiftLeft _ _ _ hacc hlow]
      have hih := ih (i + 1) (acc + x % 128 * 2 ^ (7 * i)) (x / 128) rest (by omega) hx' hacc'
        (by omega)
      rw [hn', show 7 * (i + 1) = 7 * i + 7 by ring] at hih
      rw [hih]
      congr 2
      have h3 : (2 : Nat) ^ (7 * i + 7) = 2 ^ (7 * i) * 128 := by rw [pow_add]; norm_num
      rw [h3]
      have h4 := Nat.div_add_mod x 128
      calc acc + x % 128 * 2 ^ (7 * i) + x / 128 * (2 ^ (7 * i) * 128)
          = acc + (128 * (x / 128) + x % 128) * 2 ^ (7 * i) := by ring
        _ = acc + x * 2 ^ (7 * i) := by rw [h4]

theorem ReadUvarint_uvarint (x : Nat) (rest : List Byte) (hx : x < 2 ^ 64) :
    ReadUvarint (Layout.uvarint x ++ rest) = .ok (x, rest) := by
  have h := ReadUvarint.loop_go x 0 0 x rest (by omega) (by simpa using hx) (by simp) (le_refl _)
  simpa [ReadUvarint, MaxVarintLen64, Layout.uvarint] using h

/-! ### Reading what the layout prescribes -/

theorem ReadFull_append (bs rest : List Byte) (n : Nat) (h : bs.length = n) :
    ReadFull (bs ++ rest) n = .ok (bs, rest) := by
  subst h
  simp [ReadFull]

theorem binaryReadUint16_bytesBE (v : Nat) (rest : List Byte) :
    binaryReadUint16 (Layout.bytesBE 2 v ++ rest) = .ok (v % 65536, rest) := by
  simp [binaryReadUint16, ReadFull_append _ _ 2 (Layout.length_bytesBE 2 v),
    BigEndian.Uint_bytesBE]

theorem Runtime.maxAlloc_unbounded : Runtime.maxAlloc = 2 ^ 63 - 1 := rfl

theorem ReadBytes_of_lt (reader : List Byte) (n : Nat) (h : n < 2 ^ 63) :
    ReadBytes reader (int64OfUint64 n)
      = match ReadFull reader n with
        | .error err => .error err
        | .ok (b, reader) => .ok (b, reader) := by
  have hc : ¬ (((n : Nat) : Int) < 0 ∨ ((Runtime.maxAlloc : Nat) : Int) < (n : Int)) := by
    rw [Runtime.maxAlloc_unbounded]
    omega
  simp only [ReadBytes, int64OfUint64, if_pos h, if_neg hc, Int.toNat_ofNat]

theorem ReadVString_vstring (s : GoString) (rest : List Byte) (hs : s.length < 2 ^ 63) :
    ReadVString (Layout.vstring s ++ rest) = .ok (s, rest) := by
  have hs64 : s.length < 2 ^ 64 := lt_trans hs (by norm_num)
  simp only [ReadVString, Layout.vstring, List.append_assoc, ReadUvarint_uvarint _ _ hs64,
    ReadBytes_of_lt _ _ hs, ReadFull_append s rest s.length rfl]

theorem Writer.Write_reliable (writer : Writer) (p : List Byte) (h : writer.Reliable) :
    writer.Write p = (none, writer.advance p 1) := by
  simp [Writer.Write, h writer.calls, Writer.advance]

theorem Writer.advance_reliable (writer : Writer) (bs : List Byte) (k : Nat)
    (h : writer.Reliable) : (writer.advance bs k).Reliable := h

theorem Writer.advance_advance (writer : Writer) (a b : List Byte) (j k : Nat) :
    (writer.advance a j).advance b k = writer.advance (a ++ b) (j + k) := by
  simp [Writer.advance, Nat.add_assoc]

theorem Writer.fresh_reliable : Writer.fresh.Reliable := fun _ => rfl

theorem Layout.bytesBE_two_mod (v : Nat) :
    Layout.bytesBE 2 (v % 65536) = Layout.bytesBE 2 v := by
  simp only [Layout.bytesBE, pow_one, pow_zero, Nat.div_one]
  congr 1
  · apply Fin.ext; simp only [byte_val]; omega
  · congr 1
    apply Fin.ext; simp only [byte_val]; omega

theorem binaryWriteUint16_reliable (writer : Writer) (n : Nat) (h : writer.Reliable) :
    binaryWriteUint16 writer (uint16 n) = (none, writer.advance (Layout.bytesBE 2 n) 1) := by
  rw [binaryWriteUint16, Writer.Write_reliable _ _ h, BigEndian.Put_eq_bytesBE, uint16,
    show (2 : Nat) ^ 16 = 65536 from rfl, Layout.bytesBE_two_mod]

theorem binaryWriteBool_reliable (writer : Writer) (b : Bool) (h : writer.Reliable) :
    binaryWriteBool writer b = (none, writer.advance (Layout.bool b) 1) := by
  rw [binaryWriteBool, Writer.Write_reliable _ _ h, Layout.bool]

theorem binaryWriteInt64_reliable (writer : Writer) (x : Int) (h : writer.Reliable) :
    binaryWriteInt64 writer x
      = (none, writer.advance (Layout.bytesBE 8 (Layout.twosComplement 8 x)) 1) := by
  rw [binaryWriteInt64, Writer.Write_reliable _ _ h, BigEndian.Put_eq_bytesBE]
  rfl

theorem binaryWriteInt32_reliable (writer : Writer) (x : Int) (h : writer.Reliable) :
    binaryWriteInt32 writer x
      = (none, writer.advance (Layout.bytesBE 4 (Layout.twosComplement 4 x)) 1) := by
  rw [binaryWriteInt32, Writer.Write_reliable _ _ h, BigEndian.Put_eq_bytesBE]
  rfl

theorem WriteVString_reliable (writer : Writer) (s : GoString) (h : writer.Reliable)
    (hs : s.length < 2 ^ 64) :
    WriteVString writer s = (none, writer.advance (Layout.vstring s) 2) := by
  have hu : uint64 s.length = s.length := Nat.mod_eq_of_lt hs
  simp only [WriteVString, WriteUVariant, WriteString, hu, Writer.Write_reliable _ _ h,
    Writer.Write_reliable _ _ (Writer.advance_reliable _ _ _ h), PutUvarint_eq_uvarint _ hs]
  simp only [Writer.advance_advance, Layout.vstring]

theorem writeGroups.encodeItems_reliable (slots : List (Option OutboundGroupItem)) :
    ∀ (writer : Writer), writer.Reliable → (∀ slot ∈ slots, SlotValid slot) →
      writeGroups.encodeItems writer slots
        = (none, writer.advance (Layout.items slots) (6 * slots.length)) := by
  induction slots with
  | nil => intro writer _ _; simp [writeGroups.encodeItems, Layout.items, Writer.advance]
  | cons slot slots ih =>
    intro writer hw h
    have hslot : SlotValid slot := h slot (List.mem_cons_self _ _)
    cases slot with
    | none => exact absurd hslot (fun h => h)
    | some item =>
      obtain ⟨h1, h2, -⟩ : item.Valid := hslot
      have p63 : (2 : Nat) ^ 63 < 2 ^ 64 := by norm_num
      have r1 := Writer.advance_reliable writer (Layout.vstring item.Tag) 2 hw
      have r2 := Writer.advance_reliable _ (Layout.vstring item.Type_) 2 r1
      have r3 := Writer.advance_reliable _
        (Layout.bytesBE 8 (Layout.twosComplement 8 item.URLTestTime)) 1 r2
      have r4 := Writer.advance_reliable _
        (Layout.bytesBE 4 (Layout.twosComplement 4 item.URLTestDelay)) 1 r3
      simp only [writeGroups.encodeItems, WriteVString_reliable _ _ hw (lt_trans h1 p63),
        WriteVString_reliable _ _ r1 (lt_trans h2 p63), binaryWriteInt64_reliable _ _ r2,
        binaryWriteInt32_reliable _ _ r3,
        ih _ r4 (fun s hs => h s (List.mem_cons_of_mem _ hs))]
      simp only [Writer.advance_advance, Layout.items, Layout.item, List.append_assoc,
        List.length_cons]
      congr 2
      omega

theorem writeGroups.encodeGroups_reliable (groups : List OutboundGroup) :
    ∀ (writer : Writer), writer.Reliable → SnapshotValid groups →
      writeGroups.encodeGroups writer groups
        = (none, writer.advance (Layout.groups groups) (writeGroups.encodeCalls groups)) := by
  induction groups with
  | nil =>
    intro writer _ _
    simp [writeGroups.encodeGroups, Layout.groups, Writer.advance, writeGroups.encodeCalls]
  | cons group groups ih =>
    intro writer hw hv
    obtain ⟨h1, h2, h3, h4⟩ := hv group (List.mem_cons_self _ _)
    have p63 : (2 : Nat) ^ 63 < 2 ^ 64 := by norm_num
    have r1 := Writer.advance_reliable writer (Layout.vstring group.Tag) 2 hw
    have r2 := Writer.advance_reliable _ (Layout.vstring group.Type_) 2 r1
    have r3 := Writer.advance_reliable _ (Layout.bool group.Selectable) 1 r2
    have r4 := Writer.advance_reliable _ (Layout.vstring group.Selected) 2 r3
    have r5 := Writer.advance_reliable _ (Layout.bytesBE 2 group.items.length) 1 r4
    have r6 := Writer.advance_reliable _ (Layout.items group.items) (6 * group.items.length) r5
    simp only [writeGroups.encodeGroups, WriteVString_reliable _ _ hw (lt_trans h1 p63),
      WriteVString_reliable _ _ r1 (lt_trans h2 p63), binaryWriteBool_reliable _ _ r2,
      WriteVString_reliable _ _ r3 (lt_trans h3 p63), binaryWriteUint16_reliable _ _ r4,
      writeGroups.encodeItems_reliable _ _ r5 h4,
      ih _ r6 (fun g hg => hv g (List.mem_cons_of_mem _ hg))]
    simp only [Writer.advance_advance, Layout.groups, Layout.group, List.append_assoc,
      writeGroups.encodeCalls]

theorem writeGroups.encode_reliable (groups : List OutboundGroup) (writer : Writer)
    (hw : writer.Reliable) (hv : SnapshotValid groups) :
    writeGroups.encode writer groups
      = (none, writer.advance (Layout.frame groups) (1 + writeGroups.encodeCalls groups)) := by
  have r1 := Writer.advance_reliable writer (Layout.bytesBE 2 groups.length) 1 hw
  simp only [writeGroups.encode, binaryWriteUint16_reliable _ _ hw,
    writeGroups.encodeGroups_reliable _ _ r1 hv]
  simp only [Writer.advance_advance, Layout.frame]

/-! ### Short reads -/

theorem writeGroups.encode_fresh (groups : List OutboundGroup) (hv : SnapshotValid groups) :
    (writeGroups.encode Writer.fresh groups).1 = none ∧
      (writeGroups.encode Writer.fresh groups).2.written = Layout.frame groups := by
  rw [writeGroups.encode_reliable groups Writer.fresh Writer.fresh_reliable hv]
  exact ⟨rfl, by simp [Writer.advance, Writer.fresh]⟩

theorem readGroups_zero [Runtime] (rest : List Byte) :
    readGroups (0 :: 0 :: rest) = .ok (newIterator [], rest) := by
  simp [readGroups, binaryReadUint16, ReadFull, BigEndian.Uint, readGroups.groupLoop]

theorem groups65536_valid : SnapshotValid groups65536 := by
  intro group hg
  have := List.eq_of_mem_replicate hg
  subst this
  decide

theorem groups65536_length : groups65536.length = 65536 :=
  List.length_replicate _ _

theorem Layout.bytesBE_two_65536 : Layout.bytesBE 2 65536 = [0, 0] := by decide

theorem frame_groups65536 :
    Layout.frame groups65536 = 0 :: 0 :: Layout.groups groups65536 := by
  rw [Layout.frame, groups65536_length, Layout.bytesBE_two_65536]
  rfl

/-! ## The claims -/

/-- C2: for every well-formed snapshot with at most 65535 groups and at most 65535 items per
group, the encoding half of `writeGroups` on a writer that accepts everything returns no error
and has written exactly the frame of the specification: the group count on two bytes
big-endian, then per group the vstrings of tag and kind, the selectable byte, the vstring of
selected, the item count on two bytes, then per item the vstrings of tag and kind, the time on
eight bytes and the delay on four bytes in two's complement. -/
theorem encode_writes_frame_layout (groups : List OutboundGroup)
    (hv : SnapshotValid groups) (_ : CountsFit groups) :
    (writeGroups.encode Writer.fresh groups).1 = none ∧
      (writeGroups.encode Writer.fresh groups).2.written = Layout.frame groups :=
  writeGroups.encode_fresh groups hv

set_option maxRecDepth 100000 in
/-- The example snapshot of the specification is encoded to its 41 bytes. -/
theorem encode_writes_frame_layout_witness :
    SnapshotValid exampleSnapshot ∧ CountsFit exampleSnapshot ∧
      (writeGroups.encode Writer.fresh exampleSnapshot).2.written = exampleFrame :=
  ⟨by decide, by decide,
    (encode_writes_frame_layout exampleSnapshot (by decide) (by decide)).2.trans (by decide)⟩

/-- C3: on a frame whose group count is zero (the two bytes `00 00`), `readGroups` returns no
error, consumes exactly these two bytes, and returns an iterator over no group: `HasNext` is
false. -/
theorem readGroups_degenerate_frame (rest : List Byte) :
    ∃ it, readGroups (0x00 :: 0x00 :: rest) = .ok (it, rest) ∧
      it.HasNext = false ∧ it.values = [] :=
  ⟨newIterator [], readGroups_zero rest, rfl, rfl⟩

theorem readGroups.itemLoop_slots [Runtime] (n : Nat) :
    ∀ (j : Nat) (items : List (Option OutboundGroupItem)) (reader : List Byte)
      (items' : List (Option OutboundGroupItem)) (rest : List Byte),
      readGroups.itemLoop n j items reader = .ok (items', rest) →
      items'.length = items.length ∧
      (∀ k, k < j → items'[k]? = items[k]?) ∧
      (∀ k, j ≤ k → k < j + n → k < items.length → ∃ item, items'[k]? = some (some item)) := by
  induction n with
  | zero =>
    intro j items reader items' rest h
    simp only [readGroups.itemLoop, ReadResult.ok.injEq, Prod.mk.injEq] at h
    obtain ⟨rfl, -⟩ := h
    exact ⟨rfl, fun _ _ => rfl, fun k h1 h2 _ => absurd h2 (by omega)⟩
  | succ n ih =>
    intro j items reader items' rest h
    cases hitem : readGroups.item reader with
    | error err => simp [readGroups.itemLoop, hitem] at h
    | panic => simp [readGroups.itemLoop, hitem] at h
    | ok v =>
      obtain ⟨item, r1⟩ := v
      simp only [readGroups.itemLoop, hitem] at h
      obtain ⟨hlen, hlow, hhigh⟩ := ih _ _ _ _ _ h
      rw [List.length_set] at hlen hhigh
      refine ⟨hlen, ?_, ?_⟩
      · intro k hk
        rw [hlow k (by omega), List.getElem?_set_ne (by omega)]
      · intro k hk1 hk2 hk3
        by_cases hkj : k = j
        · subst hkj
          exact ⟨item, by rw [hlow k (by omega), List.getElem?_set_self hk3]⟩
        · exact hhigh k (by omega) (by omega) hk3

theorem readGroups.itemLoop_filled [Runtime] (n : Nat) (reader : List Byte)
    (items' : List (Option OutboundGroupItem)) (rest : List Byte)
    (h : readGroups.itemLoop n 0 (List.replicate n none) reader = .ok (items', rest)) :
    items'.length = n ∧ ∀ slot ∈ items', slot ≠ none := by
  obtain ⟨hlen, -, hhigh⟩ := readGroups.itemLoop_slots n 0 _ reader items' rest h
  rw [List.length_replicate] at hlen hhigh
  refine ⟨hlen, ?_⟩
  intro slot hslot
  obtain ⟨k, hk⟩ := List.getElem?_of_mem hslot
  have hklt : k < items'.length := by
    by_contra hc
    rw [List.getElem?_eq_none (by omega)] at hk
    exact absurd hk (by simp)
  obtain ⟨item, hitem⟩ := hhigh k (by omega) (by omega) (by omega)
  rw [hitem] at hk
  rintro rfl
  simp at hk

theorem readGroups.group_ok [Runtime] (reader : List Byte) (group : OutboundGroup)
    (rest : List Byte)
    (h : readGroups.group reader = .ok (group, rest)) :
    DeclaredItemCount reader group.items.length ∧ ∀ slot ∈ group.items, slot ≠ none := by
  cases h1 : ReadVString reader with
  | error err => simp [readGroups.group, h1] at h
  | panic => simp [readGroups.group, h1] at h
  | ok v1 =>
    obtain ⟨tag, r1⟩ := v1
    cases h2 : ReadVString r1 with
    | error err => simp [readGroups.group, h1, h2] at h
    | panic => simp [readGroups.group, h1, h2] at h
    | ok v2 =>
      obtain ⟨type, r2⟩ := v2
      cases h3 : binaryReadBool r2 with
      | error err => simp [readGroups.group, h1, h2, h3] at h
      | ok v3 =>
        obtain ⟨selectable, r3⟩ := v3
        cases h4 : ReadVString r3 with
        | error err => simp [readGroups.group, h1, h2, h3, h4] at h
        | panic => simp [readGroups.group, h1, h2, h3, h4] at h
        | ok v4 =>
          obtain ⟨selected, r4⟩ := v4
          cases h5 : binaryReadUint16 r4 with
          | error err => simp [readGroups.group, h1, h2, h3, h4, h5] at h
          | ok v5 =>
            obtain ⟨itemLength, r5⟩ := v5
            cases h6 : readGroups.itemLoop itemLength 0 (List.replicate itemLength none) r5 with
            | error err => simp [readGroups.group, h1, h2, h3, h4, h5, h6] at h
            | panic => simp [readGroups.group, h1, h2, h3, h4, h5, h6] at h
            | ok v6 =>
              obtain ⟨items, r6⟩ := v6
              simp only [readGroups.group, h1, h2, h3, h4, h5, h6, ReadResult.ok.injEq,
                Prod.mk.injEq] at h
              obtain ⟨rfl, -⟩ := h
              obtain ⟨hlen, hnil⟩ := readGroups.itemLoop_filled _ _ _ _ h6
              refine ⟨?_, hnil⟩
              simp only [hlen]
              exact ⟨tag, r1, type, r2, selectable, r3, selected, r4, r5, h1, h2, h3, h4, h5⟩

theorem readGroups.groupLoop_ok [Runtime] (n : Nat) :
    ∀ (pre : List OutboundGroup) (reader : List Byte) (groups : List OutboundGroup)
      (rest : List Byte),
      readGroups.groupLoop n pre reader = .ok (groups, rest) →
      ∃ new, groups = pre ++ new ∧ new.length = n ∧
        ∀ i group, new[i]? = some group →
          ∃ before g after, readGroups.groupLoop i pre reader = .ok (before, g) ∧
            readGroups.group g = .ok (group, after) := by
  induction n with
  | zero =>
    intro pre reader groups rest h
    simp only [readGroups.groupLoop, ReadResult.ok.injEq, Prod.mk.injEq] at h
    exact ⟨[], by simp [h.1], rfl, fun i group hi => by simp at hi⟩
  | succ n ih =>
    intro pre reader groups rest h
    cases hg : readGroups.group reader with
    | error err => simp [readGroups.groupLoop, hg] at h
    | panic => simp [readGroups.groupLoop, hg] at h
    | ok v =>
      obtain ⟨g0, r1⟩ := v
      simp only [readGroups.groupLoop, hg] at h
      obtain ⟨new, hnew, hlen, hpos⟩ := ih _ _ _ _ h
      refine ⟨g0 :: new, by simp [hnew], by simp [hlen], ?_⟩
      intro i group hi
      cases i with
      | zero =>
        simp only [List.getElem?_cons_zero, Option.some.injEq] at hi
        subst hi
        exact ⟨pre, reader, r1, rfl, hg⟩
      | succ i =>
        rw [List.getElem?_cons_succ] at hi
        obtain ⟨before, g, after, h1, h2⟩ := hpos i group hi
        exact ⟨before, g, after, by simp only [readGroups.groupLoop, hg, h1], h2⟩

/-- On every byte input and on every runtime, `readGroups` panics, or returns an error and
nothing else, or returns a complete snapshot: exactly as many groups as the leading `u16` says,
the group number `i` decoded from the record that follows the first `i` records, with exactly
as many item slots as the `u16` item count of that record says, none of them nil. -/
theorem readGroups_complete_or_none [Runtime] (input : List Byte) :
    readGroups input = .panic ∨
    (∃ err, readGroups input = .error err) ∨
    (∃ it rest groupLength r0,
      readGroups input = .ok (it, rest) ∧
      binaryReadUint16 input = .ok (groupLength, r0) ∧
      it.values.length = groupLength ∧
      ∀ i group, it.values[i]? = some group →
        (∃ before g after, readGroups.groupLoop i [] r0 = .ok (before, g) ∧
          readGroups.group g = .ok (group, after) ∧
          DeclaredItemCount g group.items.length) ∧
        ∀ slot ∈ group.items, slot ≠ none) := by
  cases h1 : binaryReadUint16 input with
  | error err => exact Or.inr (Or.inl ⟨err, by simp [readGroups, h1]⟩)
  | ok v =>
    obtain ⟨groupLength, r0⟩ := v
    cases h2 : readGroups.groupLoop groupLength [] r0 with
    | panic => exact Or.inl (by simp [readGroups, h1, h2])
    | error err => exact Or.inr (Or.inl ⟨err, by simp [readGroups, h1, h2]⟩)
    | ok w =>
      obtain ⟨groups, rest⟩ := w
      right
      right
      obtain ⟨new, hnew, hlen, hpos⟩ := readGroups.groupLoop_ok _ _ _ _ _ h2
      simp only [List.nil_append] at hnew
      subst hnew
      refine ⟨newIterator groups, rest, groupLength, r0, by simp [readGroups, h1, h2], rfl,
        hlen, ?_⟩
      intro i group hi
      obtain ⟨before, g, after, hb, hg⟩ := hpos i group hi
      obtain ⟨hcount, hnil⟩ := readGroups.group_ok _ _ _ hg
      exact ⟨⟨before, g, after, hb, hg, hcount⟩, hnil⟩

/-! ### A vstring length that `make` refuses -/

theorem int64OfUint64_of_lt (n : Nat) (h : n < 2 ^ 63) : int64OfUint64 n = (n : Int) := by
  simp only [int64OfUint64, if_pos h]

theorem ReadBytes_natCast [Runtime] (reader : List Byte) (n : Nat) :
    ReadBytes reader (n : Int)
      = if Runtime.maxAlloc < n then .panic
        else match ReadFull reader n with
          | .error err => .error err
          | .ok (b, reader) => .ok (b, reader) := by
  by_cases hc : Runtime.maxAlloc < n
  · have hc2 : (n : Int) < 0 ∨ ((Runtime.maxAlloc : Nat) : Int) < (n : Int) :=
      Or.inr (by exact_mod_cast hc)
    simp only [ReadBytes, if_pos hc2, if_pos hc]
  · have hc2 : ¬ ((n : Int) < 0 ∨ ((Runtime.maxAlloc : Nat) : Int) < (n : Int)) := by
      rintro (h1 | h1)
      · omega
      · exact hc (by exact_mod_cast h1)
    simp only [ReadBytes, if_neg hc2, if_neg hc, Int.toNat_ofNat]

theorem ReadVString_beyond [Runtime] (reader rest : List Byte) (length : Nat)
    (h : ReadUvarint reader = .ok (length, rest)) (h63 : length < 2 ^ 63)
    (hne : rest ≠ []) (hshort : rest.length < length) :
    ReadVString reader
      = if Runtime.maxAlloc < length then .panic else .error .ErrUnexpectedEOF := by
  have hf : ReadFull rest length = .error .ErrUnexpectedEOF := by
    have h0 : ¬ rest.length = 0 := fun h0 => hne (List.length_eq_zero.mp h0)
    simp only [ReadFull, if_neg (Nat.not_le.mpr hshort), if_neg h0]
  by_cases hc : Runtime.maxAlloc < length
  · simp only [ReadVString, h, int64OfUint64_of_lt length h63, ReadBytes_natCast, if_pos hc]
  · simp only [ReadVString, h, int64OfUint64_of_lt length h63, ReadBytes_natCast, if_neg hc, hf]

theorem readGroups_first_tag [Runtime] (input r0 : List Byte) (n : Nat)
    (h0 : binaryReadUint16 input = .ok (n + 1, r0)) :
    (ReadVString r0 = .panic → readGroups input = .panic) ∧
      ∀ err, ReadVString r0 = .error err → readGroups input = .error err := by
  constructor
  · intro h
    simp only [readGroups, h0, readGroups.groupLoop, readGroups.group, h]
  · intro err h
    simp only [readGroups, h0, readGroups.groupLoop, readGroups.group, h]

set_option maxRecDepth 100000 in
theorem ReadUvarint_hugeLength :
    ReadUvarint [0x80, 0x80, 0x80, 0x80, 0x80, 0x80, 0x80, 0x80, 0x40, 0x61, 0x62]
      = .ok (2 ^ 62, [0x61, 0x62]) := by decide

set_option maxRecDepth 100000 in
theorem binaryReadUint16_hugeLength :
    binaryReadUint16 frameWithHugeLength
      = .ok (0 + 1, [0x80, 0x80, 0x80, 0x80, 0x80, 0x80, 0x80, 0x80, 0x40, 0x61, 0x62]) := by
  decide

set_option maxRecDepth 100000 in
/-- C5 does not hold of the code. On the 14 bytes `00 01 80 80 80 80 80 80 80 80 80 01 61 62`,
a frame that declares one group whose tag has a length of `2^63` bytes, `readGroups` returns
neither an error nor a snapshot: it panics in `make`, whatever the runtime can allocate. On
the 13 bytes `00 01 80 80 80 80 80 80 80 80 40 61 62`, where the length is `2^62`, it panics
on every runtime that allocates less than `2^62` bytes, and returns `unexpected EOF` on the
others only. -/
theorem readGroups_panics_on_vstring_length [Runtime] :
    readGroups frameWithNegativeLength = .panic ∧
    readGroups frameWithHugeLength
      = if Runtime.maxAlloc < 2 ^ 62 then .panic else .error .ErrUnexpectedEOF := by
  refine ⟨rfl, ?_⟩
  have hv := ReadVString_beyond _ _ _ ReadUvarint_hugeLength (by norm_num) (by simp)
    (by simp)
  by_cases hc : Runtime.maxAlloc < 2 ^ 62
  · rw [if_pos hc] at hv ⊢
    exact (readGroups_first_tag _ _ _ binaryReadUint16_hugeLength).1 hv
  · rw [if_neg hc] at hv ⊢
    exact (readGroups_first_tag _ _ _ binaryReadUint16_hugeLength).2 _ hv

/-! ### Malformed variable-length integers -/

theorem ReadFull_length (reader : List Byte) (n : Nat) (bs rest : List Byte)
    (h : ReadFull reader n = .ok (bs, rest)) : rest.length + n = reader.length := by
  unfold ReadFull at h
  split at h
  · simp only [Except.ok.injEq, Prod.mk.injEq] at h
    obtain ⟨-, rfl⟩ := h
    rw [List.length_drop]
    omega
  · split at h <;> simp at h

theorem binaryReadUint16_length (reader : List Byte) (v : Nat) (rest : List Byte)
    (h : binaryReadUint16 reader = .ok (v, rest)) : rest.length + 2 = reader.length := by
  cases h1 : ReadFull reader 2 with
  | error err => simp [binaryReadUint16, h1] at h
  | ok w =>
    obtain ⟨bs, r⟩ := w
    simp only [binaryReadUint16, h1, Except.ok.injEq, Prod.mk.injEq] at h
    obtain ⟨-, rfl⟩ := h
    exact ReadFull_length _ _ _ _ h1

theorem binaryReadBool_length (reader : List Byte) (v : Bool) (rest : List Byte)
    (h : binaryReadBool reader = .ok (v, rest)) : rest.length ≤ reader.length := by
  cases h1 : ReadFull reader 1 with
  | error err => simp [binaryReadBool, h1] at h
  | ok w =>
    obtain ⟨bs, r⟩ := w
    simp only [binaryReadBool, h1, Except.ok.injEq, Prod.mk.injEq] at h
    obtain ⟨-, rfl⟩ := h
    have := ReadFull_length _ _ _ _ h1
    omega

theorem binaryReadInt64_length (reader : List Byte) (v : Int) (rest : List Byte)
    (h : binaryReadInt64 reader = .ok (v, rest)) : rest.length ≤ reader.length := by
  cases h1 : ReadFull reader 8 with
  | error err => simp [binaryReadInt64, h1] at h
  | ok w =>
    obtain ⟨bs, r⟩ := w
    simp only [binaryReadInt64, h1, Except.ok.injEq, Prod.mk.injEq] at h
    obtain ⟨-, rfl⟩ := h
    have := ReadFull_length _ _ _ _ h1
    omega

theorem binaryReadInt32_length (reader : List Byte) (v : Int) (rest : List Byte)
    (h : binaryReadInt32 reader = .ok (v, rest)) : rest.length ≤ reader.length := by
  cases h1 : ReadFull reader 4 with
  | error err => simp [binaryReadInt32, h1] at h
  | ok w =>
    obtain ⟨bs, r⟩ := w
    simp only [binaryReadInt32, h1, Except.ok.injEq, Prod.mk.injEq] at h
    obtain ⟨-, rfl⟩ := h
    have := ReadFull_length _ _ _ _ h1
    omega

theorem ReadUvarint.loop_length (n : Nat) :
    ∀ (i s x : Nat) (reader : List Byte) (v : Nat) (rest : List Byte),
      ReadUvarint.loop n i s x reader = .ok (v, rest) → rest.length ≤ reader.length := by
  induction n with
  | zero => intro i s x reader v rest h; simp [ReadUvarint.loop] at h
  | succ n ih =>
    intro i s x reader v rest h
    cases reader with
    | nil => simp [ReadUvarint.loop, ReadByte] at h
    | cons b reader =>
      by_cases hb : b.val < 0x80
      · simp only [ReadUvarint.loop, ReadByte, hb, if_true] at h
        split at h
        · simp at h
        · simp only [Except.ok.injEq, Prod.mk.injEq] at h
          obtain ⟨-, rfl⟩ := h
          simp
      · rw [ReadUvarint.loop_more _ _ _ _ _ _ hb] at h
        have := ih _ _ _ _ _ _ h
        simp only [List.length_cons]
        omega

theorem ReadBytes_length [Runtime] (reader : List Byte) (size : Int) (bs rest : List Byte)
    (h : ReadBytes reader size = .ok (bs, rest)) : rest.length ≤ reader.length := by
  unfold ReadBytes at h
  split at h
  · simp at h
  · cases h2 : ReadFull reader size.toNat with
    | error err => simp [h2] at h
    | ok u =>
      obtain ⟨b, r⟩ := u
      simp only [h2, ReadResult.ok.injEq, Prod.mk.injEq] at h
      obtain ⟨-, rfl⟩ := h
      have := ReadFull_length _ _ _ _ h2
      omega

theorem ReadVString_length [Runtime] (reader : List Byte) (v : GoString) (rest : List Byte)
    (h : ReadVString reader = .ok (v, rest)) : rest.length ≤ reader.length := by
  cases h1 : ReadUvarint reader with
  | error err => simp [ReadVString, h1] at h
  | ok w =>
    obtain ⟨length, r1⟩ := w
    cases h2 : ReadBytes r1 (int64OfUint64 length) with
    | panic => simp [ReadVString, h1, h2] at h
    | error err => simp [ReadVString, h1, h2] at h
    | ok u =>
      obtain ⟨bs, r2⟩ := u
      simp only [ReadVString, h1, h2, ReadResult.ok.injEq, Prod.mk.injEq] at h
      obtain ⟨-, rfl⟩ := h
      have := ReadUvarint.loop_length _ _ _ _ _ _ _ h1
      have := ReadBytes_length _ _ _ _ h2
      omega

theorem readGroups.item_length [Runtime] (reader : List Byte) (item : OutboundGroupItem)
    (rest : List Byte) (h : readGroups.item reader = .ok (item, rest)) :
    rest.length ≤ reader.length := by
  cases h1 : ReadVString reader with
  | error err => simp [readGroups.item, h1] at h
  | panic => simp [readGroups.item, h1] at h
  | ok v1 =>
    obtain ⟨tag, r1⟩ := v1
    cases h2 : ReadVString r1 with
    | error err => simp [readGroups.item, h1, h2] at h
    | panic => simp [readGroups.item, h1, h2] at h
    | ok v2 =>
      obtain ⟨type, r2⟩ := v2
      cases h3 : binaryReadInt64 r2 with
      | error err => simp [readGroups.item, h1, h2, h3] at h
      | ok v3 =>
        obtain ⟨time, r3⟩ := v3
        cases h4 : binaryReadInt32 r3 with
        | error err => simp [readGroups.item, h1, h2, h3, h4] at h
        | ok v4 =>
          obtain ⟨delay, r4⟩ := v4
          simp only [readGroups.item, h1, h2, h3, h4, ReadResult.ok.injEq, Prod.mk.injEq] at h
          obtain ⟨-, rfl⟩ := h
          have := ReadVString_length _ _ _ h1
          have := ReadVString_length _ _ _ h2
          have := binaryReadInt64_length _ _ _ h3
          have := binaryReadInt32_length _ _ _ h4
          omega

theorem readGroups.itemLoop_length [Runtime] (n : Nat) :
    ∀ (j : Nat) (items : List (Option OutboundGroupItem)) (reader : List Byte)
      (items' : List (Option OutboundGroupItem)) (rest : List Byte),
      readGroups.itemLoop n j items reader = .ok (items', rest) →
      rest.length ≤ reader.length := by
  induction n with
  | zero =>
    intro j items reader items' rest h
    simp only [readGroups.itemLoop, ReadResult.ok.injEq, Prod.mk.injEq] at h
    rw [h.2]
  | succ n ih =>
    intro j items reader items' rest h
    cases hitem : readGroups.item reader with
    | error err => simp [readGroups.itemLoop, hitem] at h
    | panic => simp [readGroups.itemLoop, hitem] at h
    | ok v =>
      obtain ⟨item, r1⟩ := v
      simp only [readGroups.itemLoop, hitem] at h
      have := ih _ _ _ _ _ h
      have := readGroups.item_length _ _ _ hitem
      omega

theorem readGroups.group_length [Runtime] (reader : List Byte) (group : OutboundGroup)
    (rest : List Byte) (h : readGroups.group reader = .ok (group, rest)) :
    rest.length ≤ reader.length := by
  cases h1 : ReadVString reader with
  | error err => simp [readGroups.group, h1] at h
  | panic => simp [readGroups.group, h1] at h
  | ok v1 =>
    obtain ⟨tag, r1⟩ := v1
    cases h2 : ReadVString r1 with
    | error err => simp [readGroups.group, h1, h2] at h
    | panic => simp [readGroups.group, h1, h2] at h
    | ok v2 =>
      obtain ⟨type, r2⟩ := v2
      cases h3 : binaryReadBool r2 with
      | error err => simp [readGroups.group, h1, h2, h3] at h
      | ok v3 =>
        obtain ⟨selectable, r3⟩ := v3
        cases h4 : ReadVString r3 with
        | error err => simp [readGroups.group, h1, h2, h3, h4] at h
        | panic => simp [readGroups.group, h1, h2, h3, h4] at h
        | ok v4 =>
          obtain ⟨selected, r4⟩ := v4
          cases h5 : binaryReadUint16 r4 with
          | error err => simp [readGroups.group, h1, h2, h3, h4, h5] at h
          | ok v5 =>
            obtain ⟨itemLength, r5⟩ := v5
            cases h6 : readGroups.itemLoop itemLength 0 (List.replicate itemLength none) r5 with
            | error err => simp [readGroups.group, h1, h2, h3, h4, h5, h6] at h
            | panic => simp [readGroups.group, h1, h2, h3, h4, h5, h6] at h
            | ok v6 =>
              obtain ⟨items, r6⟩ := v6
              simp only [readGroups.group, h1, h2, h3, h4, h5, h6, ReadResult.ok.injEq,
                Prod.mk.injEq] at h
              obtain ⟨-, rfl⟩ := h
              have := ReadVString_length _ _ _ h1
              have := ReadVString_length _ _ _ h2
              have := binaryReadBool_length _ _ _ h3
              have := ReadVString_length _ _ _ h4
              have := binaryReadUint16_length _ _ _ h5
              have := readGroups.itemLoop_length _ _ _ _ _ _ h6
              omega

theorem readGroups.groupLoop_length [Runtime] (n : Nat) :
    ∀ (pre : List OutboundGroup) (reader : List Byte) (groups : List OutboundGroup)
      (rest : List Byte),
      readGroups.groupLoop n pre reader = .ok (groups, rest) →
      rest.length ≤ reader.length := by
  induction n with
  | zero =>
    intro pre reader groups rest h
    simp only [readGroups.groupLoop, ReadResult.ok.injEq, Prod.mk.injEq] at h
    rw [h.2]
  | succ n ih =>
    intro pre reader groups rest h
    cases hg : readGroups.group reader with
    | error err => simp [readGroups.groupLoop, hg] at h
    | panic => simp [readGroups.groupLoop, hg] at h
    | ok v =>
      obtain ⟨g0, r1⟩ := v
      simp only [readGroups.groupLoop, hg] at h
      have := ih _ _ _ _ h
      have := readGroups.group_length _ _ _ hg
      omega

theorem readGroups_length [Runtime] (reader : List Byte) (it : Iterator OutboundGroup)
    (rest : List Byte) (h : readGroups reader = .ok (it, rest)) :
    rest.length + 2 ≤ reader.length := by
  cases h1 : binaryReadUint16 reader with
  | error err => simp [readGroups, h1] at h
  | ok v =>
    obtain ⟨groupLength, r0⟩ := v
    cases h2 : readGroups.groupLoop groupLength [] r0 with
    | error err => simp [readGroups, h1, h2] at h
    | panic => simp [readGroups, h1, h2] at h
    | ok w =>
      obtain ⟨groups, r1⟩ := w
      simp only [readGroups, h1, h2, ReadResult.ok.injEq, Prod.mk.injEq] at h
      obtain ⟨-, rfl⟩ := h
      have := binaryReadUint16_length _ _ _ h1
      have := readGroups.groupLoop_length _ _ _ _ _ h2
      omega

/-! ### The client receive loop -/

theorem readGroups_nil [Runtime] : readGroups [] = .error .EOF := by
  simp [readGroups, binaryReadUint16, ReadFull]

/-- On every finite byte stream and on every runtime, the client receive loop ends within one
iteration more than the stream has bytes; its handler calls are one `WriteGroups` for each
frame that `readGroups` decoded in turn, followed by exactly one `Disconnected` with the text
of the error that `readGroups` returned on what was left, or by no call when `readGroups`
panicked there. -/
theorem CommandClient.handleGroupConn_terminates [Runtime] (len : Nat) :
    ∀ (conn : List Byte), conn.length ≤ len →
      ∃ (delivered : List (Iterator OutboundGroup)) (rest : List Byte),
        ReadsFrames conn delivered rest ∧
        ((∃ err, readGroups rest = .error err ∧
            ∀ fuel, conn.length < fuel →
              CommandClient.handleGroupConn fuel conn
                = some (delivered.map HandlerCall.WriteGroups
                    ++ [HandlerCall.Disconnected err.Error])) ∨
          (readGroups rest = .panic ∧
            ∀ fuel, conn.length < fuel →
              CommandClient.handleGroupConn fuel conn
                = some (delivered.map HandlerCall.WriteGroups))) := by
  induction len with
  | zero =>
    intro conn hlen
    have hnil : conn = [] := List.length_eq_zero.mp (by omega)
    subst hnil
    refine ⟨[], [], ReadsFrames.done _, Or.inl ⟨.EOF, readGroups_nil, ?_⟩⟩
    intro fuel hfuel
    obtain ⟨f, rfl⟩ : ∃ f, fuel = f + 1 := ⟨fuel - 1, by omega⟩
    simp [CommandClient.handleGroupConn, readGroups_nil]
  | succ len ih =>
    intro conn hlen
    cases h : readGroups conn with
    | panic =>
      refine ⟨[], conn, ReadsFrames.done _, Or.inr ⟨h, ?_⟩⟩
      intro fuel hfuel
      obtain ⟨f, rfl⟩ : ∃ f, fuel = f + 1 := ⟨fuel - 1, by omega⟩
      simp [CommandClient.handleGroupConn, h]
    | error err =>
      refine ⟨[], conn, ReadsFrames.done _, Or.inl ⟨err, h, ?_⟩⟩
      intro fuel hfuel
      obtain ⟨f, rfl⟩ : ∃ f, fuel = f + 1 := ⟨fuel - 1, by omega⟩
      simp [CommandClient.handleGroupConn, h]
    | ok v =>
      obtain ⟨it, conn'⟩ := v
      have hshrink := readGroups_length _ _ _ h
      obtain ⟨delivered, rest, hreads, hrun⟩ := ih conn' (by omega)
      refine ⟨it :: delivered, rest, ReadsFrames.frame h hreads, ?_⟩
      rcases hrun with ⟨err, herr, hrun⟩ | ⟨hpanic, hrun⟩
      · refine Or.inl ⟨err, herr, ?_⟩
        intro fuel hfuel
        obtain ⟨f, rfl⟩ : ∃ f, fuel = f + 1 := ⟨fuel - 1, by omega⟩
        simp [CommandClient.handleGroupConn, h, hrun f (by omega)]
      · refine Or.inr ⟨hpanic, ?_⟩
        intro fuel hfuel
        obtain ⟨f, rfl⟩ : ∃ f, fuel = f + 1 := ⟨fuel - 1, by omega⟩
        simp [CommandClient.handleGroupConn, h, hrun f (by omega)]

set_option maxRecDepth 100000 in
/-- C8 does not hold of the code. On the stream `00 01 80 80 80 80 80 80 80 80 80 01 61 62`
the client receive loop calls neither `WriteGroups` nor `Disconnected`: `readGroups` panics in
its first iteration, whatever the runtime can allocate. On the same bytes after the empty
frame `00 00`, the loop calls `WriteGroups` once, with the empty snapshot, and then panics: the
last handler call is not a `Disconnected`. -/
theorem disconnected_skipped_on_panic [Runtime] (fuel : Nat) :
    readGroups frameWithNegativeLength = .panic ∧
    CommandClient.handleGroupConn (fuel + 1) frameWithNegativeLength = some [] ∧
    CommandClient.handleGroupConn (fuel + 2) (0x00 :: 0x00 :: frameWithNegativeLength)
      = some [HandlerCall.WriteGroups (newIterator [])] :=
  ⟨rfl, rfl, rfl⟩

/-! ### The snapshot builder -/

theorem foldl_append_filterMap {α β : Type} (f : α → Option β) (l : List α) :
    ∀ (init : List β),
      l.foldl (fun acc x => match f x with
        | some y => acc ++ [y]
        | none => acc) init = init ++ l.filterMap f := by
  induction l with
  | nil => intro init; simp
  | cons x l ih =>
    intro init
    cases hx : f x with
    | none => simp [List.foldl_cons, List.filterMap_cons, hx, ih]
    | some y => simp [List.foldl_cons, List.filterMap_cons, hx, ih]

theorem foldl_append_map {α β : Type} (f : α → β) (l : List α) :
    ∀ (init : List β), l.foldl (fun acc x => acc ++ [f x]) init = init ++ l.map f := by
  induction l with
  | nil => intro init; simp
  | cons x l ih => intro init; simp [List.foldl_cons, ih]

theorem writeGroups.iGroups_eq (outbounds : List Outbound) :
    writeGroups.iGroups outbounds
      = outbounds.filterMap (fun it => it.group.map (fun group => (it, group))) := by
  unfold writeGroups.iGroups
  have h := foldl_append_filterMap
    (fun it : Outbound => it.group.map (fun group => (it, group))) outbounds []
  rw [List.nil_append] at h
  rw [← h]
  congr 1
  funext iGroups it
  cases it.group <;> rfl

theorem writeGroups.build_eq (boxService : BoxService) :
    writeGroups.build boxService
      = (writeGroups.iGroups boxService.Outbounds).map (writeGroups.group boxService) := by
  unfold writeGroups.build
  rw [foldl_append_map, List.nil_append]

theorem writeGroups.items_eq (boxService : BoxService) (all : List GoString) :
    writeGroups.items boxService all
      = all.filterMap (fun itemTag =>
          (boxService.Outbound itemTag).map
            (fun itemOutbound => some (writeGroups.item boxService itemTag itemOutbound))) := by
  unfold writeGroups.items
  have h := foldl_append_filterMap
    (fun itemTag : GoString => (boxService.Outbound itemTag).map
      (fun itemOutbound => some (writeGroups.item boxService itemTag itemOutbound))) all []
  rw [List.nil_append] at h
  rw [← h]
  congr 1
  funext items itemTag
  cases boxService.Outbound itemTag <;> rfl

theorem writeGroups.item_tag_type (boxService : BoxService) (itemTag : GoString)
    (itemOutbound : Outbound) :
    (writeGroups.item boxService itemTag itemOutbound).Tag = itemTag ∧
      (writeGroups.item boxService itemTag itemOutbound).Type_ = itemOutbound.Type_ := by
  unfold writeGroups.item
  cases boxService.LoadURLTestHistory (boxService.OutboundTag itemOutbound) <;> exact ⟨rfl, rfl⟩

/-- C9: for every engine state, the items of every built group are exactly the declared member
tags (`All()`) of the corresponding group outbound that resolve in the router, in the declared
order, each a non-nil item with `Tag` the member tag and `Type` the type of the resolved
outbound; a tag that does not resolve contributes nothing, and dropping the tags that do not
resolve from the declared list leaves the built items unchanged. -/
theorem unresolved_members_are_omitted (boxService : BoxService) :
    (writeGroups.build boxService).map
        (fun group => group.items.map (Option.map fun item => (item.Tag, item.Type_)))
      = (boxService.Outbounds.filterMap (fun it => it.group)).map
          (fun group => group.All.filterMap fun itemTag =>
            (boxService.Outbound itemTag).map fun itemOutbound =>
              some (itemTag, itemOutbound.Type_)) ∧
    ∀ all : List GoString,
      writeGroups.items boxService all
        = writeGroups.items boxService
            (all.filter fun itemTag => (boxService.Outbound itemTag).isSome) := by
  constructor
  · rw [writeGroups.build_eq, writeGroups.iGroups_eq]
    generalize boxService.Outbounds = outbounds
    induction outbounds with
    | nil => rfl
    | cons it outbounds ih =>
      cases hg : it.group with
      | none => simpa [List.filterMap_cons, hg] using ih
      | some group =>
        simp only [List.filterMap_cons, hg, Option.map_some', List.map_cons, ih,
          List.cons.injEq, and_true]
        simp only [writeGroups.group, writeGroups.items_eq]
        generalize group.All = all
        induction all with
        | nil => rfl
        | cons itemTag all ih2 =>
          cases ho : boxService.Outbound itemTag with
          | none => simpa [List.filterMap_cons, ho] using ih2
          | some itemOutbound =>
            simp [List.filterMap_cons, ho, ih2, writeGroups.item_tag_type]
  · intro all
    rw [writeGroups.items_eq, writeGroups.items_eq]
    induction all with
    | nil => rfl
    | cons itemTag all ih =>
      cases ho : boxService.Outbound itemTag with
      | none => simpa [List.filterMap_cons, List.filter_cons, ho] using ih
      | some itemOutbound => simp [List.filterMap_cons, List.filter_cons, ho, ih]

/-- C10: the groups of the built snapshot are exactly the router's outbounds that pass the type
assertion to `adapter.OutboundGroup`, one built group per such outbound and in the router's
order; each built group has `Tag`, `Type` and `Selected` equal to the outbound's `Tag()`,
`Type()` and `Now()`, and `Selectable` true exactly when the outbound is a selector. `Selected`
is whatever `Now()` returns: nothing relates it to the items. -/
theorem groups_follow_router_order (boxService : BoxService) :
    (writeGroups.build boxService).map
        (fun group => (group.Tag, group.Type_, group.Selectable, group.Selected))
      = boxService.Outbounds.filterMap (fun it =>
          it.group.map fun group => (it.Tag, it.Type_, group.isSelector, group.Now)) := by
  rw [writeGroups.build_eq, writeGroups.iGroups_eq]
  generalize boxService.Outbounds = outbounds
  induction outbounds with
  | nil => rfl
  | cons it outbounds ih =>
    cases hg : it.group with
    | none => simpa [List.filterMap_cons, hg] using ih
    | some group => simp [List.filterMap_cons, hg, ih, writeGroups.group]

/-! ### Counts that a decoded snapshot can have -/

theorem BigEndian.foldl_lt (bs : List Byte) :
    ∀ acc : Nat, bs.foldl (fun acc b => acc <<< 8 ||| b.val) acc < (acc + 1) * 256 ^ bs.length := by
  induction bs with
  | nil => intro acc; simp
  | cons b bs ih =>
    intro acc
    rw [List.foldl_cons, shiftLeft_or_byte, List.length_cons, pow_succ]
    have hb := b.isLt
    calc bs.foldl (fun acc b => acc <<< 8 ||| b.val) (acc * 256 + b.val)
        < (acc * 256 + b.val + 1) * 256 ^ bs.length := ih _
      _ ≤ ((acc + 1) * 256) * 256 ^ bs.length := Nat.mul_le_mul_right _ (by omega)
      _ = (acc + 1) * (256 ^ bs.length * 256) := by ring

theorem ReadFull_ok_length (reader : List Byte) (n : Nat) (bs rest : List Byte)
    (h : ReadFull reader n = .ok (bs, rest)) : bs.length = n := by
  unfold ReadFull at h
  split at h
  · simp only [Except.ok.injEq, Prod.mk.injEq] at h
    obtain ⟨rfl, -⟩ := h
    rw [List.length_take]
    omega
  · split at h <;> simp at h

theorem binaryReadUint16_lt (reader : List Byte) (v : Nat) (rest : List Byte)
    (h : binaryReadUint16 reader = .ok (v, rest)) : v < 65536 := by
  cases h1 : ReadFull reader 2 with
  | error err => simp [binaryReadUint16, h1] at h
  | ok w =>
    obtain ⟨bs, r⟩ := w
    simp only [binaryReadUint16, h1, Except.ok.injEq, Prod.mk.injEq] at h
    obtain ⟨rfl, -⟩ := h
    have hlen := ReadFull_ok_length _ _ _ _ h1
    have := BigEndian.foldl_lt bs 0
    rw [hlen] at this
    simpa [BigEndian.Uint] using this

theorem readGroups_ok_counts (input : List Byte) (it : Iterator OutboundGroup)
    (rest : List Byte) (h : readGroups input = .ok (it, rest)) :
    it.values.length < 65536 ∧ ∀ group ∈ it.values, group.items.length < 65536 := by
  cases h1 : binaryReadUint16 input with
  | error err => simp [readGroups, h1] at h
  | ok v =>
    obtain ⟨groupLength, r0⟩ := v
    cases h2 : readGroups.groupLoop groupLength [] r0 with
    | error err => simp [readGroups, h1, h2] at h
    | panic => simp [readGroups, h1, h2] at h
    | ok w =>
      obtain ⟨groups, r1⟩ := w
      simp only [readGroups, h1, h2, ReadResult.ok.injEq, Prod.mk.injEq] at h
      obtain ⟨rfl, -⟩ := h
      obtain ⟨new, hnew, hlen, hpos⟩ := readGroups.groupLoop_ok _ _ _ _ _ h2
      simp only [List.nil_append] at hnew
      subst hnew
      refine ⟨?_, ?_⟩
      · simp only [newIterator]
        rw [hlen]
        exact binaryReadUint16_lt _ _ _ h1
      · intro group hgroup
        obtain ⟨i, hi⟩ := List.getElem?_of_mem hgroup
        obtain ⟨before, g, after, -, hg⟩ := hpos i group hi
        obtain ⟨⟨tag, r1, type, r2, selectable, r3, selected, r4, r5, -, -, -, -, h5⟩, -⟩ :=
          readGroups.group_ok _ _ _ hg
        exact binaryReadUint16_lt _ _ _ h5

/-- C18: for every well-formed snapshot the encoder writes the group count modulo 2^16 followed
by every group record, each with its item count modulo 2^16 followed by every item record (a
two-byte big-endian field only holds its value modulo 2^16); with exactly 65536 groups the
frame starts with `00 00` and `readGroups` returns the empty snapshot and leaves all the group
records unread; and whenever `readGroups` gives back the snapshot that was encoded, the
snapshot has at most 65535 groups and each group at most 65535 items. -/
theorem count_truncation (groups : List OutboundGroup) (hv : SnapshotValid groups) :
    ((writeGroups.encode Writer.fresh groups).2.written
        = Layout.bytesBE 2 (groups.length % 2 ^ 16) ++ Layout.groups groups ∧
      ∀ group : OutboundGroup, Layout.group group
        = Layout.vstring group.Tag ++ (Layout.vstring group.Type_ ++
            (Layout.bool group.Selectable ++ (Layout.vstring group.Selected ++
              (Layout.bytesBE 2 (group.items.length % 2 ^ 16) ++ Layout.items group.items))))) ∧
    (groups.length = 65536 →
      (writeGroups.encode Writer.fresh groups).2.written = 0x00 :: 0x00 :: Layout.groups groups ∧
      readGroups (writeGroups.encode Writer.fresh groups).2.written
        = .ok (newIterator [], Layout.groups groups)) ∧
    (∀ rest, readGroups (writeGroups.encode Writer.fresh groups).2.written
        = .ok (newIterator groups, rest) → CountsFit groups) := by
  have hw := (writeGroups.encode_fresh groups hv).2
  refine ⟨⟨?_, ?_⟩, ?_, ?_⟩
  · rw [hw, Layout.frame, show (2 : Nat) ^ 16 = 65536 from rfl, Layout.bytesBE_two_mod]
  · intro group
    rw [Layout.group, show (2 : Nat) ^ 16 = 65536 from rfl, Layout.bytesBE_two_mod]
  · intro hlen
    have hframe : Layout.frame groups = 0 :: 0 :: Layout.groups groups := by
      rw [Layout.frame, hlen, Layout.bytesBE_two_65536]
      rfl
    rw [hw, hframe]
    exact ⟨rfl, readGroups_zero _⟩
  · intro rest h
    obtain ⟨h1, h2⟩ := readGroups_ok_counts _ _ _ h
    simp only [newIterator] at h1 h2
    exact ⟨by omega, fun group hg => by have := h2 group hg; omega⟩

/-- The snapshot of 65536 empty groups: its frame starts with `00 00` and decodes to the empty
snapshot. -/
theorem count_truncation_witness :
    SnapshotValid groups65536 ∧ groups65536.length = 65536 ∧
      readGroups (writeGroups.encode Writer.fresh groups65536).2.written
        = .ok (newIterator [], Layout.groups groups65536) :=
  ⟨groups65536_valid, groups65536_length,
    ((count_truncation groups65536 groups65536_valid).2.1 groups65536_length).2⟩

/-! ### Single pushes -/

theorem CommandServer.handleGroupConn.pushed_advance (conn : Writer) (bs : List Byte) (k : Nat) :
    CommandServer.handleGroupConn.pushed conn (conn.advance bs k) = bs := by
  simp [CommandServer.handleGroupConn.pushed, Writer.advance]

theorem binaryWriteUint16_zero (conn : Writer) (h : conn.fails conn.calls = none) :
    binaryWriteUint16 conn (uint16 0) = (none, conn.advance [0, 0] 1) := by
  simp only [binaryWriteUint16, Writer.Write, h, Writer.advance]
  rfl

theorem writeGroups.encode_nil (conn : Writer) :
    writeGroups.encode conn [] = binaryWriteUint16 conn (uint16 0) := by
  simp only [writeGroups.encode, List.length_nil]
  rcases binaryWriteUint16 conn (uint16 0) with ⟨_ | err, after⟩ <;> rfl

theorem writeGroups.build_nil (boxService : BoxService)
    (h : ∀ it ∈ boxService.Outbounds, it.group = none) : writeGroups.build boxService = [] := by
  rw [writeGroups.build_eq, writeGroups.iGroups_eq]
  have : boxService.Outbounds.filterMap
      (fun it => it.group.map (fun group => (it, group))) = [] := by
    rw [List.filterMap_eq_nil_iff]
    intro it hit
    simp [h it hit]
  rw [this]
  rfl

theorem readGroups_two_zero : readGroups [0x00, 0x00] = .ok (newIterator [], []) :=
  readGroups_zero []

/-- C11: every slot of every built group holds an item built for a member tag that the router
resolves; if the history storage has no record under the identity of the resolved outbound,
the item has `URLTestTime = 0` and `URLTestDelay = 0`; if it has a record, `URLTestTime` is the
record's time in Unix seconds and `URLTestDelay` is the record's delay (a `uint16`). -/
theorem history_defaults (boxService : BoxService) (group : OutboundGroup)
    (hgroup : group ∈ writeGroups.build boxService)
    (slot : Option OutboundGroupItem) (hslot : slot ∈ group.items) :
    ∃ item itemOutbound, slot = some item ∧ boxService.Outbound item.Tag = some itemOutbound ∧
      (boxService.LoadURLTestHistory (boxService.OutboundTag itemOutbound) = none →
        item.URLTestTime = 0 ∧ item.URLTestDelay = 0) ∧
      (∀ history,
        boxService.LoadURLTestHistory (boxService.OutboundTag itemOutbound) = some history →
        item.URLTestTime = history.Time ∧
        (history.Delay < 2 ^ 16 → item.URLTestDelay = (history.Delay : Int))) := by
  rw [writeGroups.build_eq, List.mem_map] at hgroup
  obtain ⟨iGroup, -, rfl⟩ := hgroup
  simp only [writeGroups.group, writeGroups.items_eq, List.mem_filterMap] at hslot
  obtain ⟨itemTag, -, hres⟩ := hslot
  cases ho : boxService.Outbound itemTag with
  | none => simp [ho] at hres
  | some itemOutbound =>
    simp only [ho, Option.map_some', Option.some.injEq] at hres
    subst hres
    have htag := (writeGroups.item_tag_type boxService itemTag itemOutbound).1
    refine ⟨_, itemOutbound, rfl, by rw [htag]; exact ho, ?_, ?_⟩
    · intro hnone
      simp [writeGroups.item, hnone]
    · intro history hsome
      refine ⟨by simp [writeGroups.item, hsome], ?_⟩
      intro hd
      simp only [writeGroups.item, hsome, int32OfUint16]
      rw [Nat.mod_eq_of_lt hd]

set_option maxRecDepth 100000 in
/-- The item `us` of the example engine state carries its record: 1700000000 and 42. -/
theorem history_defaults_witness :
    ∃ item itemOutbound,
      some (⟨[0x75, 0x73], [0x64, 0x69, 0x72, 0x65, 0x63, 0x74], 1700000000, 42⟩ :
        OutboundGroupItem) = some item ∧
      exampleService.Outbound item.Tag = some itemOutbound ∧
      (exampleService.LoadURLTestHistory (exampleService.OutboundTag itemOutbound) = none →
        item.URLTestTime = 0 ∧ item.URLTestDelay = 0) ∧
      (∀ history,
        exampleService.LoadURLTestHistory (exampleService.OutboundTag itemOutbound)
          = some history →
        item.URLTestTime = history.Time ∧
        (history.Delay < 2 ^ 16 → item.URLTestDelay = (history.Delay : Int))) :=
  history_defaults exampleService
    ⟨[0x61, 0x75, 0x74, 0x6f], [0x75, 0x72, 0x6c, 0x74, 0x65, 0x73, 0x74], false, [],
      [some ⟨[0x75, 0x73], [0x64, 0x69, 0x72, 0x65, 0x63, 0x74], 1700000000, 42⟩]⟩
    (by decide) (some ⟨[0x75, 0x73], [0x64, 0x69, 0x72, 0x65, 0x63, 0x74], 1700000000, 42⟩)
    (by decide)

/-- C12: in an iteration of the push loop in which no service is attached and the write
succeeds, the push is one `Write` call with exactly the two bytes `00 00`, whatever the states
of router and history storage (there is no service to ask); the loop records these two bytes
as its push; they are the bytes of the encoding of the empty snapshot, and `readGroups` decodes
them to the empty sequence. -/
theorem idle_frame (conn : Writer) (hconn : conn.fails conn.calls = none) :
    CommandServer.handleGroupConn.push none conn = (none, conn.advance [0x00, 0x00] 1) ∧
    (∀ services events i, services i = none →
      (CommandServer.handleGroupConn.loop services events i conn).pushes.head?
        = some [0x00, 0x00]) ∧
    (writeGroups.encode Writer.fresh []).2.written = [0x00, 0x00] ∧
    readGroups [0x00, 0x00] = .ok (newIterator [], []) := by
  have hpush : CommandServer.handleGroupConn.push none conn
      = (none, conn.advance [0x00, 0x00] 1) := binaryWriteUint16_zero conn hconn
  refine ⟨hpush, ?_, ?_, readGroups_two_zero⟩
  · intro services events i hi
    cases events with
    | nil =>
      simp only [CommandServer.handleGroupConn.loop, hi, hpush,
        CommandServer.handleGroupConn.pushed_advance, List.head?_cons]
    | cons event events =>
      cases event <;>
        simp only [CommandServer.handleGroupConn.loop, hi, hpush,
          CommandServer.handleGroupConn.pushed_advance, List.head?_cons]
  · rw [writeGroups.encode_nil, binaryWriteUint16_zero _ rfl]
    rfl

/-- The idle push on a fresh connection. -/
theorem idle_frame_witness :
    Writer.fresh.fails Writer.fresh.calls = none ∧
      CommandServer.handleGroupConn.push none Writer.fresh
        = (none, Writer.fresh.advance [0x00, 0x00] 1) :=
  ⟨rfl, (idle_frame Writer.fresh rfl).1⟩

/-- C19: when a service is attached whose router has no outbound with group capability, the
push of the loop does exactly what the push without a service does, on every connection: the
same `Write` call with the same result; when that call succeeds the bytes pushed are `00 00`
in both states, and `readGroups` decodes them to the same empty snapshot. -/
theorem idle_and_empty_active_agree (boxService : BoxService)
    (h : ∀ it ∈ boxService.Outbounds, it.group = none) (conn : Writer) :
    CommandServer.handleGroupConn.push (some boxService) conn
      = CommandServer.handleGroupConn.push none conn ∧
    writeGroups conn boxService = binaryWriteUint16 conn (uint16 0) ∧
    (conn.fails conn.calls = none →
      CommandServer.handleGroupConn.pushed conn (writeGroups conn boxService).2 = [0x00, 0x00] ∧
      CommandServer.handleGroupConn.pushed conn
        (CommandServer.handleGroupConn.push none conn).2 = [0x00, 0x00]) ∧
    readGroups [0x00, 0x00] = .ok (newIterator [], []) := by
  have hw : writeGroups conn boxService = binaryWriteUint16 conn (uint16 0) := by
    rw [writeGroups, writeGroups.build_nil boxService h, writeGroups.encode_nil]
  refine ⟨hw, hw, ?_, readGroups_two_zero⟩
  intro hconn
  simp only [CommandServer.handleGroupConn.push, hw, binaryWriteUint16_zero conn hconn,
    CommandServer.handleGroupConn.pushed_advance, and_self]

/-- An engine state with one plain outbound pushes the idle frame. -/
theorem idle_and_empty_active_agree_witness :
    (∀ it ∈ serviceWithoutGroups.Outbounds, it.group = none) ∧
      writeGroups Writer.fresh serviceWithoutGroups
        = binaryWriteUint16 Writer.fresh (uint16 0) :=
  ⟨by decide, (idle_and_empty_active_agree serviceWithoutGroups (by decide) Writer.fresh).2.1⟩

/-! ### The selectable byte -/

theorem binaryReadBool_cons (c : Byte) (rest : List Byte) :
    binaryReadBool (c :: rest) = .ok (decide (c ≠ 0), rest) := by
  simp [binaryReadBool, ReadFull]

theorem ReadVString_empty (rest : List Byte) : ReadVString (0 :: rest) = .ok ([], rest) := by
  have h := ReadVString_vstring [] rest (by simp)
  simpa [Layout.vstring, Layout.uvarint, Layout.uvarint.go, byte] using h

theorem readGroups_selectable_byte (c : Byte) :
    readGroups [0x00, 0x01, 0x00, 0x00, c, 0x00, 0x00, 0x00]
      = .ok (newIterator [(⟨[], [], decide (c ≠ 0), [], []⟩ : OutboundGroup)], []) := by
  have hcount : binaryReadUint16 [0x00, 0x01, 0x00, 0x00, c, 0x00, 0x00, 0x00]
      = .ok (1, [0x00, 0x00, c, 0x00, 0x00, 0x00]) := by
    have := binaryReadUint16_bytesBE 1 [0x00, 0x00, c, 0x00, 0x00, 0x00]
    simpa [Layout.bytesBE, byte] using this
  have hitems : binaryReadUint16 [0x00, 0x00] = .ok (0, []) := by
    have := binaryReadUint16_bytesBE 0 []
    simpa [Layout.bytesBE, byte] using this
  simp only [readGroups, hcount, readGroups.groupLoop, readGroups.group, ReadVString_empty,
    binaryReadBool_cons, hitems, readGroups.itemLoop, List.replicate, List.nil_append]

set_option maxRecDepth 100000 in
/-- C20: `binary.Read` into a `bool` gives true for every non-zero byte, so `readGroups`
accepts the one-group frame with any non-zero selectable byte as a selectable group; the
encoder writes only `00` or `01` for the selectable byte; hence the accepted frame with
selectable byte `02` is re-encoded to a different frame (with `01`). -/
theorem decoder_more_lenient_than_encoder :
    (∀ (c : Byte) (rest : List Byte), binaryReadBool (c :: rest) = .ok (decide (c ≠ 0), rest)) ∧
    (∀ c : Byte, c ≠ 0 →
      readGroups [0x00, 0x01, 0x00, 0x00, c, 0x00, 0x00, 0x00]
        = .ok (newIterator [selectableGroup], [])) ∧
    (∀ (writer : Writer) (v : Bool), writer.fails writer.calls = none →
      (binaryWriteBool writer v).2.written = writer.written ++ [0x00] ∨
      (binaryWriteBool writer v).2.written = writer.written ++ [0x01]) ∧
    readGroups [0x00, 0x01, 0x00, 0x00, 0x02, 0x00, 0x00, 0x00]
      = .ok (newIterator [selectableGroup], []) ∧
    (writeGroups.encode Writer.fresh [selectableGroup]).2.written
      = [0x00, 0x01, 0x00, 0x00, 0x01, 0x00, 0x00, 0x00] ∧
    (writeGroups.encode Writer.fresh [selectableGroup]).2.written
      ≠ [0x00, 0x01, 0x00, 0x00, 0x02, 0x00, 0x00, 0x00] := by
  refine ⟨binaryReadBool_cons, ?_, ?_, ?_, by decide, by decide⟩
  · intro c hc
    rw [readGroups_selectable_byte c]
    simp [hc, selectableGroup]
  · intro writer v h
    cases v
    · left
      simp [binaryWriteBool, Writer.Write, h]
    · right
      simp [binaryWriteBool, Writer.Write, h]
  · rw [readGroups_selectable_byte 0x02]
    rfl

/-! ### Writers that fail -/

theorem Writer.andThen_none (r : Option GoError × Writer)
    (k : Writer → Option GoError × Writer) (h : r.1 = none) : Writer.andThen r k = k r.2 := by
  obtain ⟨e, w⟩ := r
  cases e with
  | none => rfl
  | some err => simp at h

theorem Writer.andThen_some (r : Option GoError × Writer)
    (k : Writer → Option GoError × Writer) (err : GoError) (h : r.1 = some err) :
    Writer.andThen r k = (some err, r.2) := by
  obtain ⟨e, w⟩ := r
  cases e with
  | none => simp at h
  | some err' =>
    simp only [Option.some.injEq] at h
    subst h
    rfl

theorem Sequential.write (p : List Byte) : Sequential (fun writer => writer.Write p) 1 := by
  intro writer
  cases h : writer.fails writer.calls with
  | none =>
    refine ⟨by simp [Writer.Write, h], fun _ => by simp [Writer.Write, h], ?_⟩
    intro k err hk _ hfail
    have hk0 : k = 0 := by omega
    subst hk0
    rw [Nat.add_zero, h] at hfail
    simp at hfail
  | some e =>
    refine ⟨by simp [Writer.Write, h], fun hall => ?_, ?_⟩
    · have := hall 0 (by omega)
      rw [Nat.add_zero, h] at this
      simp at this
    · intro k err hk _ hfail
      have hk0 : k = 0 := by omega
      subst hk0
      rw [Nat.add_zero, h] at hfail
      simp only [Option.some.injEq] at hfail
      subst hfail
      simp [Writer.Write, h]

theorem Sequential.andThen {f g : Writer → Option GoError × Writer} {c d : Nat}
    (hf : Sequential f c) (hg : Sequential g d) :
    Sequential (fun writer => Writer.andThen (f writer) g) (c + d) := by
  intro writer
  obtain ⟨hff, hfok, hferr⟩ := hf writer
  obtain ⟨hgf, hgok, hgerr⟩ := hg (f writer).2
  refine ⟨?_, ?_, ?_⟩
  · cases h : (f writer).1 with
    | none => simp only [Writer.andThen_none _ _ h, hgf, hff]
    | some err => simp only [Writer.andThen_some _ _ err h, hff]
  · intro hall
    obtain ⟨h1, h2⟩ := hfok (fun j hj => hall j (by omega))
    obtain ⟨h3, h4⟩ := hgok (fun j hj => by
      rw [hff, h2, Nat.add_assoc]
      exact hall (c + j) (by omega))
    simp only [Writer.andThen_none _ _ h1, h3, h4, h2, Nat.add_assoc, and_self]
  · intro k err hk hbefore hfail
    by_cases hkc : k < c
    · obtain ⟨h1, h2⟩ := hferr k err hkc hbefore hfail
      simp only [Writer.andThen_some _ _ err h1, h2, and_self]
    · obtain ⟨h1, h2⟩ := hfok (fun j hj => hbefore j (by omega))
      obtain ⟨h3, h4⟩ := hgerr (k - c) err (by omega)
        (fun j hj => by
          rw [hff, h2, Nat.add_assoc]
          exact hbefore (c + j) (by omega))
        (by
          rw [hff, h2, Nat.add_assoc, show c + (k - c) = k by omega]
          exact hfail)
      simp only [Writer.andThen_none _ _ h1, h3, h4, h2, true_and]
      omega

theorem Sequential.of_eq {f : Writer → Option GoError × Writer} {c d : Nat}
    (hf : Sequential f c) (h : c = d) : Sequential f d := h ▸ hf

theorem Sequential.nothing : Sequential (fun writer => (none, writer)) 0 := by
  intro writer
  exact ⟨rfl, fun _ => ⟨rfl, rfl⟩, fun k err hk => absurd hk (by omega)⟩

theorem Sequential.WriteVString (s : GoString) :
    Sequential (fun writer => WriteVString writer s) 2 :=
  Sequential.andThen (Sequential.write (PutUvarint (uint64 s.length))) (Sequential.write s)

theorem Sequential.encodeItems (slots : List (Option OutboundGroupItem))
    (h : ∀ slot ∈ slots, slot ≠ none) :
    Sequential (fun writer => writeGroups.encodeItems writer slots) (6 * slots.length) := by
  induction slots with
  | nil => exact Sequential.nothing
  | cons slot slots ih =>
    cases slot with
    | none => exact absurd rfl (h none (List.mem_cons_self _ _))
    | some item =>
      have ih' := ih (fun s hs => h s (List.mem_cons_of_mem _ hs))
      have hseq := Sequential.andThen (Sequential.WriteVString item.Tag)
        (Sequential.andThen (Sequential.WriteVString item.Type_)
          (Sequential.andThen (Sequential.write (BigEndian.Put 8 (uint64OfInt64 item.URLTestTime)))
            (Sequential.andThen
              (Sequential.write (BigEndian.Put 4 (uint32OfInt32 item.URLTestDelay))) ih')))
      exact Sequential.of_eq hseq (by simp only [List.length_cons]; omega)

theorem Sequential.encodeGroups (groups : List OutboundGroup)
    (h : ∀ group ∈ groups, ∀ slot ∈ group.items, slot ≠ none) :
    Sequential (fun writer => writeGroups.encodeGroups writer groups)
      (writeGroups.encodeCalls groups) := by
  induction groups with
  | nil => exact Sequential.nothing
  | cons group groups ih =>
    have ih' := ih (fun g hg => h g (List.mem_cons_of_mem _ hg))
    have hitems := Sequential.encodeItems group.items (h group (List.mem_cons_self _ _))
    have hseq := Sequential.andThen (Sequential.WriteVString group.Tag)
      (Sequential.andThen (Sequential.WriteVString group.Type_)
        (Sequential.andThen (Sequential.write [if group.Selectable then 1 else 0])
          (Sequential.andThen (Sequential.WriteVString group.Selected)
            (Sequential.andThen
              (Sequential.write (BigEndian.Put 2 (uint16 group.items.length)))
              (Sequential.andThen hitems ih')))))
    exact Sequential.of_eq hseq (by simp only [writeGroups.encodeCalls]; omega)

theorem Sequential.encode (groups : List OutboundGroup)
    (h : ∀ group ∈ groups, ∀ slot ∈ group.items, slot ≠ none) :
    Sequential (fun writer => writeGroups.encode writer groups) (writeGroups.calls groups) :=
  Sequential.andThen (Sequential.write (BigEndian.Put 2 (uint16 groups.length)))
    (Sequential.encodeGroups groups h)

theorem writeGroups.build_no_nil (boxService : BoxService) :
    ∀ group ∈ writeGroups.build boxService, ∀ slot ∈ group.items, slot ≠ none := by
  intro group hgroup slot hslot
  rw [writeGroups.build_eq, List.mem_map] at hgroup
  obtain ⟨iGroup, -, rfl⟩ := hgroup
  simp only [writeGroups.group, writeGroups.items_eq, List.mem_filterMap] at hslot
  obtain ⟨itemTag, -, hres⟩ := hslot
  cases ho : boxService.Outbound itemTag with
  | none => simp [ho] at hres
  | some itemOutbound =>
    simp only [ho, Option.map_some', Option.some.injEq] at hres
    subst hres
    simp

theorem Sequential.writeGroups (boxService : BoxService) :
    Sequential (fun writer => writeGroups writer boxService)
      (writeGroups.calls (writeGroups.build boxService)) :=
  Sequential.encode _ (writeGroups.build_no_nil boxService)

theorem Sequential.push (service : Option BoxService) :
    Sequential (CommandServer.handleGroupConn.push service)
      (match service with
        | some boxService => writeGroups.calls (writeGroups.build boxService)
        | none => 1) := by
  cases service with
  | none => exact Sequential.write _
  | some boxService => exact Sequential.writeGroups boxService

/-! ### The push loop -/

theorem CommandServer.handleGroupConn.loop_push_error (services : Nat → Option BoxService)
    (events : List WaitEvent) (i : Nat) (conn : Writer) (err : GoError)
    (h : (CommandServer.handleGroupConn.push (services i) conn).1 = some err) :
    CommandServer.handleGroupConn.loop services events i conn
      = { exit := .returned err
          conn := (CommandServer.handleGroupConn.push (services i) conn).2
          waits := 0
          closed := true
          pushes := [CommandServer.handleGroupConn.pushed conn
            (CommandServer.handleGroupConn.push (services i) conn).2] } := by
  rcases hp : CommandServer.handleGroupConn.push (services i) conn with ⟨e, after⟩
  rw [hp] at h
  simp only at h
  subst h
  cases events with
  | nil => simp only [CommandServer.handleGroupConn.loop, hp]
  | cons event events =>
    cases event <;> simp only [CommandServer.handleGroupConn.loop, hp]

theorem CommandServer.handleGroupConn.loop_pushes_head (services : Nat → Option BoxService)
    (events : List WaitEvent) (i : Nat) (conn : Writer) :
    ∃ tail, (CommandServer.handleGroupConn.loop services events i conn).pushes
      = CommandServer.handleGroupConn.pushed conn
          (CommandServer.handleGroupConn.push (services i) conn).2 :: tail := by
  rcases hp : CommandServer.handleGroupConn.push (services i) conn with ⟨e, after⟩
  cases e with
  | some err =>
    rw [CommandServer.handleGroupConn.loop_push_error services events i conn err (by rw [hp])]
    exact ⟨[], by rw [hp]⟩
  | none =>
    cases events with
    | nil => exact ⟨[], by simp only [CommandServer.handleGroupConn.loop, hp]⟩
    | cons event events =>
      cases event with
      | wake =>
        exact ⟨(CommandServer.handleGroupConn.loop services events (i + 1) after).pushes,
          by simp only [CommandServer.handleGroupConn.loop, hp]⟩
      | done ctxErr => exact ⟨[], by simp only [CommandServer.handleGroupConn.loop, hp]⟩

theorem CommandServer.handleGroupConn.push_reliable (service : Option BoxService)
    (conn : Writer) (hconn : conn.Reliable) :
    (CommandServer.handleGroupConn.push service conn).1 = none ∧
      (CommandServer.handleGroupConn.push service conn).2.Reliable := by
  obtain ⟨hfails, hok, -⟩ := Sequential.push service conn
  refine ⟨(hok (fun j _ => hconn _)).1, ?_⟩
  intro k
  rw [hfails]
  exact hconn k

theorem CommandServer.handleGroupConn.loop_wakes (services : Nat → Option BoxService)
    (err : GoError) (n : Nat) :
    ∀ (i : Nat) (conn : Writer), conn.Reliable →
      (CommandServer.handleGroupConn.loop services
          (List.replicate n WaitEvent.wake ++ [WaitEvent.done err]) i conn).exit
        = .returned err ∧
      (CommandServer.handleGroupConn.loop services
          (List.replicate n WaitEvent.wake ++ [WaitEvent.done err]) i conn).pushes.length
        = n + 1 ∧
      (CommandServer.handleGroupConn.loop services
          (List.replicate n WaitEvent.wake ++ [WaitEvent.done err]) i conn).waits = n + 1 ∧
      (CommandServer.handleGroupConn.loop services
          (List.replicate n WaitEvent.wake ++ [WaitEvent.done err]) i conn).closed = true := by
  induction n with
  | zero =>
    intro i conn hconn
    obtain ⟨h1, -⟩ := CommandServer.handleGroupConn.push_reliable (services i) conn hconn
    rcases hp : CommandServer.handleGroupConn.push (services i) conn with ⟨e, after⟩
    rw [hp] at h1
    simp only at h1
    subst h1
    simp [CommandServer.handleGroupConn.loop, hp]
  | succ n ih =>
    intro i conn hconn
    obtain ⟨h1, h2⟩ := CommandServer.handleGroupConn.push_reliable (services i) conn hconn
    rcases hp : CommandServer.handleGroupConn.push (services i) conn with ⟨e, after⟩
    rw [hp] at h1 h2
    simp only at h1 h2
    subst h1
    obtain ⟨r1, r2, r3, r4⟩ := ih (i + 1) after h2
    simp only [List.replicate_succ, List.cons_append, CommandServer.handleGroupConn.loop, hp,
      List.length_cons, List.append_eq]
    exact ⟨r1, by rw [r2], by rw [r3], r4⟩

theorem CommandServer.handleGroupConn.loop_pushes_length (services : Nat → Option BoxService)
    (events : List WaitEvent) :
    ∀ (i : Nat) (conn : Writer), conn.Reliable →
      (CommandServer.handleGroupConn.loop services events i conn).pushes.length
        = (events.takeWhile WaitEvent.isWake).length + 1 := by
  induction events with
  | nil =>
    intro i conn hconn
    obtain ⟨h1, -⟩ := CommandServer.handleGroupConn.push_reliable (services i) conn hconn
    rcases hp : CommandServer.handleGroupConn.push (services i) conn with ⟨e, after⟩
    rw [hp] at h1
    simp only at h1
    subst h1
    simp [CommandServer.handleGroupConn.loop, hp]
  | cons event events ih =>
    intro i conn hconn
    obtain ⟨h1, h2⟩ := CommandServer.handleGroupConn.push_reliable (services i) conn hconn
    rcases hp : CommandServer.handleGroupConn.push (services i) conn with ⟨e, after⟩
    rw [hp] at h1 h2
    simp only at h1 h2
    subst h1
    cases event with
    | wake =>
      simp [CommandServer.handleGroupConn.loop, hp, List.takeWhile_cons, WaitEvent.isWake,
        ih (i + 1) after h2]
    | done ctxErr =>
      simp [CommandServer.handleGroupConn.loop, hp, List.takeWhile_cons, WaitEvent.isWake]

/-- C14: when the `Write` call number `k` that `writeGroups` issues is the first call of the
writer to fail, with `err`, `writeGroups` returns exactly `err` and the failing call is the last
one it issues; the push loop, in an iteration with that service attached (and, for `k = 0`, in
an iteration with no service attached), returns `err` without entering the wait step, after
that single push attempt, and the connection is closed. -/
theorem write_error_aborts_push (boxService : BoxService) (writer : Writer) (k : Nat)
    (err : GoError) (hk : k < writeGroups.calls (writeGroups.build boxService))
    (hbefore : ∀ j, j < k → writer.fails (writer.calls + j) = none)
    (hfail : writer.fails (writer.calls + k) = some err) :
    ((writeGroups writer boxService).1 = some err ∧
      (writeGroups writer boxService).2.calls = writer.calls + k + 1) ∧
    (∀ services events i, services i = some boxService →
      (CommandServer.handleGroupConn.loop services events i writer).exit = .returned err ∧
      (CommandServer.handleGroupConn.loop services events i writer).waits = 0 ∧
      (CommandServer.handleGroupConn.loop services events i writer).pushes.length = 1 ∧
      (CommandServer.handleGroupConn.loop services events i writer).conn.calls
        = writer.calls + k + 1 ∧
      (CommandServer.handleGroupConn.loop services events i writer).closed = true) ∧
    (k = 0 → ∀ services events i, services i = none →
      (CommandServer.handleGroupConn.loop services events i writer).exit = .returned err ∧
      (CommandServer.handleGroupConn.loop services events i writer).waits = 0 ∧
      (CommandServer.handleGroupConn.loop services events i writer).pushes.length = 1 ∧
      (CommandServer.handleGroupConn.loop services events i writer).conn.calls
        = writer.calls + 1 ∧
      (CommandServer.handleGroupConn.loop services events i writer).closed = true) := by
  obtain ⟨-, -, hwerr⟩ := Sequential.writeGroups boxService writer
  obtain ⟨h1, h2⟩ := hwerr k err hk hbefore hfail
  refine ⟨⟨h1, h2⟩, ?_, ?_⟩
  · intro services events i hi
    have hp : (CommandServer.handleGroupConn.push (services i) writer).1 = some err := by
      rw [hi]; exact h1
    rw [CommandServer.handleGroupConn.loop_push_error services events i writer err hp, hi]
    exact ⟨rfl, rfl, rfl, h2, rfl⟩
  · intro hk0 services events i hi
    subst hk0
    obtain ⟨-, -, hierr⟩ := Sequential.push none writer
    obtain ⟨h3, h4⟩ := hierr 0 err (by simp) hbefore hfail
    have hp : (CommandServer.handleGroupConn.push (services i) writer).1 = some err := by
      rw [hi]; exact h3
    rw [CommandServer.handleGroupConn.loop_push_error services events i writer err hp, hi]
    exact ⟨rfl, rfl, rfl, h4, rfl⟩

set_option maxRecDepth 100000 in
/-- A connection whose fifth `Write` call breaks, under the example engine state. -/
theorem write_error_aborts_push_witness :
    4 < writeGroups.calls (writeGroups.build exampleService) ∧
      (writeGroups (Writer.failingAt 4 (.writeError "broken pipe")) exampleService).1
        = some (.writeError "broken pipe") ∧
      (writeGroups (Writer.failingAt 4 (.writeError "broken pipe")) exampleService).2.calls
        = 0 + 4 + 1 :=
  ⟨by decide,
    (write_error_aborts_push exampleService (Writer.failingAt 4 (.writeError "broken pipe")) 4
      (.writeError "broken pipe") (by decide) (by decide) (by decide)).1⟩

/-- C15: on a connection whose writes all succeed, when the wait step observes `n` wakes and
then the context done with `err`, the push loop pushes exactly `n + 1` times, enters the wait
step `n + 1` times and returns `err` with the connection closed; and for every script of wait
outcomes the number of pushes is one more than the number of wakes consumed, so no push other
than the first happens without a wake before it. -/
theorem push_then_wait_cadence (services : Nat → Option BoxService) (conn : Writer)
    (hconn : conn.Reliable) :
    (∀ (n : Nat) (err : GoError),
      (CommandServer.handleGroupConn services
          (List.replicate n WaitEvent.wake ++ [WaitEvent.done err]) conn).exit
        = .returned err ∧
      (CommandServer.handleGroupConn services
          (List.replicate n WaitEvent.wake ++ [WaitEvent.done err]) conn).pushes.length
        = n + 1 ∧
      (CommandServer.handleGroupConn services
          (List.replicate n WaitEvent.wake ++ [WaitEvent.done err]) conn).waits = n + 1 ∧
      (CommandServer.handleGroupConn services
          (List.replicate n WaitEvent.wake ++ [WaitEvent.done err]) conn).closed = true) ∧
    (∀ events : List WaitEvent,
      (CommandServer.handleGroupConn services events conn).pushes.length
        = (events.takeWhile WaitEvent.isWake).length + 1) :=
  ⟨fun n err => CommandServer.handleGroupConn.loop_wakes services err n 0 conn hconn,
    fun events => CommandServer.handleGroupConn.loop_pushes_length services events 0 conn hconn⟩

set_option maxRecDepth 100000 in
/-- Two wakes and then a cancelled context: three pushes, the second one with the example
engine state attached. -/
theorem push_then_wait_cadence_witness :
    Writer.fresh.Reliable ∧
      (CommandServer.handleGroupConn (fun i => if i = 1 then some exampleService else none)
          (List.replicate 2 WaitEvent.wake ++ [WaitEvent.done (.contextError "context canceled")])
          Writer.fresh).pushes = [[0x00, 0x00], exampleFrame, [0x00, 0x00]] ∧
      (CommandServer.handleGroupConn (fun i => if i = 1 then some exampleService else none)
          (List.replicate 2 WaitEvent.wake ++ [WaitEvent.done (.contextError "context canceled")])
          Writer.fresh).pushes.length = 2 + 1 :=
  ⟨Writer.fresh_reliable, by decide,
    ((push_then_wait_cadence (fun i => if i = 1 then some exampleService else none)
      Writer.fresh Writer.fresh_reliable).1 2 (.contextError "context canceled")).2.1⟩

/-! ### From idle to active, and coalesced wakes -/

theorem writeGroups_reliable (boxService : BoxService) (conn : Writer) (hconn : conn.Reliable)
    (hv : SnapshotValid (writeGroups.build boxService)) :
    writeGroups conn boxService
      = (none, conn.advance (Layout.frame (writeGroups.build boxService))
          (1 + writeGroups.encodeCalls (writeGroups.build boxService))) :=
  writeGroups.encode_reliable _ conn hconn hv

theorem writeGroups.build_service65536 : writeGroups.build service65536 = groups65536 := by
  rw [writeGroups.build_eq, writeGroups.iGroups_eq]
  have h : service65536.Outbounds = List.replicate 65536 emptyGroupOutbound := rfl
  have hfm := @List.filterMap_replicate_of_some Outbound (Outbound × OutboundGroupCapability)
    emptyGroupOutbound
    (emptyGroupOutbound, ({ Now := [], All := [], isSelector := false } :
      OutboundGroupCapability))
    65536 (fun it => Option.map (fun group => (it, group)) it.group) rfl
  rw [h, hfm, List.map_replicate]
  rfl

theorem binaryReadUint16_zero_zero (rest : List Byte) :
    binaryReadUint16 (0 :: 0 :: rest) = .ok (0, rest) := by
  simp [binaryReadUint16, ReadFull, BigEndian.Uint]

theorem writeGroups.build_shape (boxService : BoxService) :
    (writeGroups.build boxService).map (fun _ => ())
      = (boxService.Outbounds.filterMap (fun it => it.group)).map (fun _ => ()) := by
  rw [writeGroups.build_eq, writeGroups.iGroups_eq]
  generalize boxService.Outbounds = outbounds
  induction outbounds with
  | nil => rfl
  | cons it outbounds ih =>
    cases hg : it.group with
    | none => simpa [List.filterMap_cons, hg] using ih
    | some group => simpa [List.filterMap_cons, hg] using ih

theorem Layout.frame_count (groups : List OutboundGroup) (h : groups.length ≤ 65535) :
    binaryReadUint16 (Layout.frame groups) = .ok (groups.length, Layout.groups groups) := by
  rw [Layout.frame, binaryReadUint16_bytesBE, Nat.mod_eq_of_lt (by omega)]

theorem CommandServer.handleGroupConn.idle_then_active_pushes
    (services : Nat → Option BoxService) (boxService : BoxService) (events : List WaitEvent)
    (i : Nat) (conn : Writer) (hidle : services i = none)
    (hactive : services (i + 1) = some boxService) (hconn : conn.Reliable)
    (hv : SnapshotValid (writeGroups.build boxService)) :
    (CommandServer.handleGroupConn.loop services (WaitEvent.wake :: events) i conn).pushes.take 2
      = [[0x00, 0x00], Layout.frame (writeGroups.build boxService)] := by
  have hpush : CommandServer.handleGroupConn.push (services i) conn
      = (none, conn.advance [0x00, 0x00] 1) := by
    rw [hidle]
    exact binaryWriteUint16_zero conn (hconn _)
  have hrel := Writer.advance_reliable conn [0x00, 0x00] 1 hconn
  obtain ⟨tail, htail⟩ := CommandServer.handleGroupConn.loop_pushes_head services events (i + 1)
    (conn.advance [0x00, 0x00] 1)
  rw [hactive] at htail
  simp only [CommandServer.handleGroupConn.push, writeGroups_reliable boxService _ hrel hv,
    CommandServer.handleGroupConn.pushed_advance] at htail
  simp only [CommandServer.handleGroupConn.loop, hpush,
    CommandServer.handleGroupConn.pushed_advance, htail, List.take_succ_cons, List.take_zero]

/-- C13, as amended: on a connection whose writes succeed, when an iteration of the push loop
observes no service, the wait step is woken, and the next iteration observes a service, the
two pushes are the idle frame `00 00` and then the full frame of the snapshot of that service,
the same bytes that `writeGroups` writes for it on a fresh connection; and whenever the router
has at least one and at most 65535 outbounds with group capability, the group count of that
frame is their number, hence not zero. -/
theorem idle_to_active_transition (services : Nat → Option BoxService)
    (boxService : BoxService) (events : List WaitEvent) (i : Nat) (conn : Writer)
    (hidle : services i = none) (hactive : services (i + 1) = some boxService)
    (hconn : conn.Reliable) (hv : SnapshotValid (writeGroups.build boxService)) :
    (CommandServer.handleGroupConn.loop services (WaitEvent.wake :: events) i conn).pushes.take 2
      = [[0x00, 0x00], Layout.frame (writeGroups.build boxService)] ∧
    (writeGroups Writer.fresh boxService).2.written
      = Layout.frame (writeGroups.build boxService) ∧
    (boxService.Outbounds.filterMap (fun it => it.group)).length
      = (writeGroups.build boxService).length ∧
    (1 ≤ (boxService.Outbounds.filterMap (fun it => it.group)).length →
      (boxService.Outbounds.filterMap (fun it => it.group)).length ≤ 65535 →
      ∃ groupLength rest,
        binaryReadUint16 (Layout.frame (writeGroups.build boxService))
          = .ok (groupLength, rest) ∧
        groupLength = (boxService.Outbounds.filterMap (fun it => it.group)).length ∧
        groupLength ≠ 0) := by
  have hlen : (boxService.Outbounds.filterMap (fun it => it.group)).length
      = (writeGroups.build boxService).length := by
    have := congrArg List.length (writeGroups.build_shape boxService)
    simpa using this.symm
  refine ⟨CommandServer.handleGroupConn.idle_then_active_pushes services boxService events i
    conn hidle hactive hconn hv, (writeGroups.encode_fresh _ hv).2, hlen, ?_⟩
  intro h1 h2
  rw [hlen] at h1 h2 ⊢
  exact ⟨_, _, Layout.frame_count _ h2, rfl, by omega⟩

set_option maxRecDepth 100000 in
/-- From no service to the example engine state: the idle frame, then the example frame. -/
theorem idle_to_active_transition_witness :
    Writer.fresh.Reliable ∧ SnapshotValid (writeGroups.build exampleService) ∧
      (CommandServer.handleGroupConn.loop (fun i => if i = 1 then some exampleService else none)
          [WaitEvent.wake] 0 Writer.fresh).pushes.take 2
        = [[0x00, 0x00], Layout.frame (writeGroups.build exampleService)] :=
  ⟨Writer.fresh_reliable, by decide,
    (idle_to_active_transition (fun i => if i = 1 then some exampleService else none)
      exampleService [] 0 Writer.fresh rfl rfl Writer.fresh_reliable (by decide)).1⟩

/-- C13 as stated fails: with 65536 group outbounds in the router, the frame pushed right after
the idle frame is the full frame of the service, but its group count is zero. -/
theorem active_frame_with_zero_count :
    service65536.Outbounds.length = 65536 ∧
    (∀ it ∈ service65536.Outbounds, it.group.isSome = true) ∧
    ∃ rest,
      (CommandServer.handleGroupConn
          (fun i => if i = 0 then none else some service65536) [WaitEvent.wake]
          Writer.fresh).pushes.take 2
        = [[0x00, 0x00], Layout.frame (writeGroups.build service65536)] ∧
      binaryReadUint16 (Layout.frame (writeGroups.build service65536)) = .ok (0, rest) := by
  refine ⟨List.length_replicate _ _, ?_, ?_⟩
  · intro it hit
    have := List.eq_of_mem_replicate hit
    subst this
    rfl
  · have hv : SnapshotValid (writeGroups.build service65536) := by
      rw [writeGroups.build_service65536]
      exact groups65536_valid
    refine ⟨Layout.groups groups65536,
      CommandServer.handleGroupConn.idle_then_active_pushes _ service65536 [] 0 Writer.fresh
        rfl rfl Writer.fresh_reliable hv, ?_⟩
    rw [writeGroups.build_service65536, frame_groups65536]
    exact binaryReadUint16_zero_zero _

theorem Notifier.posts_pending (n : Nat) :
    ∀ notifier : Notifier, 1 ≤ n → Notifier.posts n notifier = { pending := true } := by
  induction n with
  | zero => intro notifier h; omega
  | succ n ih =>
    intro notifier _
    cases n with
    | zero => rfl
    | succ m => exact ih notifier.post (by omega)

theorem Notifier.drain_pending (fuel : Nat) (h : 1 ≤ fuel) :
    Notifier.drain fuel { pending := true } = ([WaitEvent.wake], { pending := false }) := by
  obtain ⟨f, rfl⟩ : ∃ f, fuel = f + 1 := ⟨fuel - 1, by omega⟩
  cases f <;> simp [Notifier.drain, Notifier.receive]

theorem Notifier.drain_idle (fuel : Nat) :
    Notifier.drain fuel { pending := false } = ([], { pending := false }) := by
  cases fuel <;> simp [Notifier.drain, Notifier.receive]

/-- C16: `N ≥ 1` notifications posted to the notifier before the push loop consumes any of
them leave a single pending signal; the wait steps of the loop obtain exactly one wake from
it, after which no signal is pending; so on a connection whose writes succeed the loop makes
exactly one push more than it makes without any notification, and is then suspended in its
wait step. -/
theorem coalesced_notifications (services : Nat → Option BoxService) (conn : Writer)
    (hconn : conn.Reliable) (notifier : Notifier) (N : Nat) (hN : 1 ≤ N)
    (fuel : Nat) (hfuel : 1 ≤ fuel) (i : Nat) :
    Notifier.drain fuel (Notifier.posts N notifier) = ([WaitEvent.wake], { pending := false }) ∧
    (CommandServer.handleGroupConn.loop services
        (Notifier.drain fuel (Notifier.posts N notifier)).1 i conn).pushes.length
      = (CommandServer.handleGroupConn.loop services
          (Notifier.drain fuel { pending := false }).1 i conn).pushes.length + 1 ∧
    (CommandServer.handleGroupConn.loop services
        (Notifier.drain fuel { pending := false }).1 i conn).pushes.length = 1 ∧
    (CommandServer.handleGroupConn.loop services
        (Notifier.drain fuel (Notifier.posts N notifier)).1 i conn).exit = .suspended := by
  have hdrain := Notifier.drain_pending fuel hfuel
  rw [Notifier.posts_pending N notifier hN, hdrain, Notifier.drain_idle]
  obtain ⟨h1, h2⟩ := CommandServer.handleGroupConn.push_reliable (services i) conn hconn
  rcases hp : CommandServer.handleGroupConn.push (services i) conn with ⟨e, after⟩
  rw [hp] at h1 h2
  simp only at h1 h2
  subst h1
  obtain ⟨h3, -⟩ := CommandServer.handleGroupConn.push_reliable (services (i + 1)) after h2
  rcases hq : CommandServer.handleGroupConn.push (services (i + 1)) after with ⟨e', after'⟩
  rw [hq] at h3
  simp only at h3
  subst h3
  simp [CommandServer.handleGroupConn.loop, hp, hq]

set_option maxRecDepth 100000 in
/-- Three notifications while the example engine state is attached: one more push. -/
theorem coalesced_notifications_witness :
    Writer.fresh.Reliable ∧
      Notifier.drain 4 (Notifier.posts 3 { pending := false })
        = ([WaitEvent.wake], { pending := false }) ∧
      (CommandServer.handleGroupConn.loop (fun _ => some exampleService)
          (Notifier.drain 4 (Notifier.posts 3 { pending := false })).1 0 Writer.fresh).pushes
        = [exampleFrame, exampleFrame] :=
  ⟨Writer.fresh_reliable,
    (coalesced_notifications (fun _ => some exampleService) Writer.fresh Writer.fresh_reliable
      { pending := false } 3 (by decide) 4 (by decide) 0).1,
    by decide⟩

end Libbox
